import Mathlib

/-!
Verification of the path command stream / builder (`path/src/generic.rs`) and of the
stroke tessellator (`tessellation/src/stroke.rs`) of the lyon fork under review.

The embedding is shallow: the flat `PathOp` cell array (a `union` of a verb, an
`EndpointId`, a `CtrlPointId` and a raw `u32` offset, all 32-bit) is modelled as a list
of natural numbers holding the raw `u32` value of each cell, with the verbs encoded by
their `#[repr(u32)]` discriminants (`Line = 0`, `Quadratic = 1`, `Cubic = 2`,
`Begin = 3`, `Close = 4`, `End = 5`).  Casts `usize as u32` and `u32` additions from
the source are kept as explicit reductions modulo 2^32; Rust code that would panic or
hit undefined behaviour (out of bounds indexing, reading a non-verb cell as a verb,
`Option::unwrap` on `None`) is modelled by `Option`, returning `none` there.
-/

set_option maxRecDepth 40000

namespace Lyon

/-- Reduction modulo 2^32 performed by every `as u32` cast and by `u32` arithmetic. -/
def toU32 (n : Nat) : Nat := n % 4294967296

/-- A cell of the command stream: the raw `u32` contents of one `PathOp`. -/
abbrev Cell := Nat

/-- The `Verb` enum of `generic.rs` (`#[repr(u32)]`). -/
inductive Verb
  | Line
  | Quadratic
  | Cubic
  | Begin
  | Close
  | End
deriving DecidableEq, Repr

/-- The `u32` discriminant of a verb, as assigned in the source. -/
def Verb.code : Verb → Cell
  | .Line => 0
  | .Quadratic => 1
  | .Cubic => 2
  | .Begin => 3
  | .Close => 4
  | .End => 5

/-- `PathOp::get_verb`: reinterpret a cell as a verb.  The source asserts the value is
`< 6`; a cell outside that range is modelled as `none`. -/
def getVerb (c : Cell) : Option Verb :=
  if c = 0 then some .Line
  else if c = 1 then some .Quadratic
  else if c = 2 then some .Cubic
  else if c = 3 then some .Begin
  else if c = 4 then some .Close
  else if c = 5 then some .End
  else none

/-- The `IdEvent` enum (`Event<PathEventId, EndpointId, CtrlPointId>`): endpoint and
control-point ids and the event id are raw `u32` values. -/
inductive IdEvent
  | Begin (at_ : Nat)
  | Line (from_ to_ edge : Nat)
  | Quadratic (from_ ctrl to_ edge : Nat)
  | Cubic (from_ ctrl1 ctrl2 to_ edge : Nat)
  | End (last first : Nat) (close : Bool) (edge : Nat)
deriving DecidableEq, Repr

/-- `PathCommandsSlice::event`: random-access decoding of the event whose tag cell is
at offset `id`.  Out-of-range reads (including the `idx - 1` underflow when `id = 0`
on an edge or End/Close tag) are `none`; payload cells are read raw, exactly as the
unsafe union reads in the source. -/
def event (cmds : List Cell) (id : Nat) : Option IdEvent :=
  match cmds[id]? with
  | none => none
  | some tag =>
    match getVerb tag with
    | none => none
    | some .Line =>
      if id = 0 then none else
      match cmds[id - 1]?, cmds[id + 1]? with
      | some f, some t => some (.Line f t id)
      | _, _ => none
    | some .Quadratic =>
      if id = 0 then none else
      match cmds[id - 1]?, cmds[id + 1]?, cmds[id + 2]? with
      | some f, some c, some t => some (.Quadratic f c t id)
      | _, _, _ => none
    | some .Cubic =>
      if id = 0 then none else
      match cmds[id - 1]?, cmds[id + 1]?, cmds[id + 2]?, cmds[id + 3]? with
      | some f, some c1, some c2, some t => some (.Cubic f c1 c2 t id)
      | _, _, _, _ => none
    | some .Begin =>
      match cmds[id + 1]? with
      | some ep => some (.Begin ep)
      | none => none
    | some .End =>
      if id = 0 then none else
      match cmds[id - 1]?, cmds[id + 1]? with
      | some last, some off =>
        match cmds[off + 1]? with
        | some first => some (.End last first false id)
        | none => none
      | _, _ => none
    | some .Close =>
      if id = 0 then none else
      match cmds[id - 1]?, cmds[id + 1]? with
      | some last, some off =>
        match cmds[off + 1]? with
        | some first => some (.End last first true id)
        | none => none
      | _, _ => none

/-- `PathCommandsSlice::next_event_id_in_sub_path`.  `none` models the panic on an
invalid tag cell or an out-of-range read of the End/Close payload. -/
def next_event_id_in_sub_path (cmds : List Cell) (id : Nat) : Option Nat :=
  match cmds[id]? with
  | none => none
  | some tag =>
    match getVerb tag with
    | none => none
    | some .Line | some .Begin => some (toU32 (id + 2))
    | some .Quadratic => some (toU32 (id + 3))
    | some .Cubic => some (toU32 (id + 4))
    | some .End | some .Close => cmds[id + 1]?

/-- `PathCommandsSlice::next_event_id_in_path`.  The outer `Option` models the panic
on an invalid tag cell; the inner one is the source's return value. -/
def next_event_id_in_path (cmds : List Cell) (id : Nat) : Option (Option Nat) :=
  match cmds[id]? with
  | none => none
  | some tag =>
    match getVerb tag with
    | none => none
    | some v =>
      let next : Nat :=
        match v with
        | .Line | .Begin | .End | .Close => toU32 (id + 2)
        | .Quadratic => toU32 (id + 3)
        | .Cubic => toU32 (id + 4)
      some (if next < toU32 cmds.length then some next else none)

/-- One step of the `IdEvents` iterator, unrolled over the remaining cells.  The
accumulated output pairs each yielded `IdEvent` with the value of the iterator's `idx`
counter (the event id) when it was yielded.  A malformed tail (tag with missing
payload, or a cell that is not a valid verb, both panics/UB in the source) ends the
sequence. -/
def id_events_aux : List Cell → Nat → Nat → Nat → List (Nat × IdEvent)
  | 3 :: to_ :: rest, idx, _prev, _first =>
      (idx, .Begin to_) :: id_events_aux rest (toU32 (idx + 2)) to_ to_
  | 0 :: to_ :: rest, idx, prev, first =>
      (idx, .Line prev to_ idx) :: id_events_aux rest (toU32 (idx + 2)) to_ first
  | 1 :: c :: to_ :: rest, idx, prev, first =>
      (idx, .Quadratic prev c to_ idx) :: id_events_aux rest (toU32 (idx + 3)) to_ first
  | 2 :: c1 :: c2 :: to_ :: rest, idx, prev, first =>
      (idx, .Cubic prev c1 c2 to_ idx) :: id_events_aux rest (toU32 (idx + 4)) to_ first
  | 5 :: _off :: rest, idx, prev, first =>
      (idx, .End prev first false idx) :: id_events_aux rest (toU32 (idx + 2)) first first
  | 4 :: _off :: rest, idx, prev, first =>
      (idx, .End prev first true idx) :: id_events_aux rest (toU32 (idx + 2)) first first
  | _, _, _, _ => []

/-- `PathCommands::id_events` run to completion: `IdEvents::new` starts with
`idx = 0`, `prev_endpoint = EndpointId(0)`, `first_endpoint = EndpointId(0)`. -/
def id_events (cmds : List Cell) : List (Nat × IdEvent) :=
  id_events_aux cmds 0 0 0

/-- `PathCommandsBuilder` (the `start` field is written once and never read, exactly
as in the source). -/
structure PathCommandsBuilder where
  cmds : List Cell
  last_cmd : Verb
  start : Nat
  first_event_index : Nat
deriving DecidableEq, Repr

namespace PathCommandsBuilder

/-- `PathCommandsBuilder::new`. -/
def new : PathCommandsBuilder := ⟨[], .End, 0, 0⟩

/-- `PathCommandsBuilder::end_if_needed`: close the current sub-path with an `End`
cell pair when the last command was an edge.  Note the source does not update
`last_cmd` here. -/
def end_if_needed (b : PathCommandsBuilder) : PathCommandsBuilder :=
  match b.last_cmd with
  | .Line | .Quadratic | .Cubic =>
      { b with cmds := b.cmds ++ [Verb.End.code, b.first_event_index] }
  | _ => b

/-- `PathCommandsBuilder::move_to`. -/
def move_to (b : PathCommandsBuilder) (to_ : Nat) : PathCommandsBuilder × Nat :=
  let b := b.end_if_needed
  let fei := toU32 b.cmds.length
  let id := toU32 b.cmds.length
  ({ cmds := b.cmds ++ [Verb.Begin.code, to_]
     last_cmd := .Begin
     start := b.start
     first_event_index := fei }, id)

/-- `PathCommandsBuilder::begin_if_needed`: with no open sub-path, implicitly insert
a `Begin` whose endpoint is the raw value of the last cell of the stream (`0` when
the stream is empty). -/
def begin_if_needed (b : PathCommandsBuilder) : PathCommandsBuilder :=
  match b.last_cmd with
  | .Close | .End =>
      let first := b.cmds.getLast?.getD 0
      (b.move_to first).1
  | _ => b

/-- `PathCommandsBuilder::line_to`. -/
def line_to (b : PathCommandsBuilder) (to_ : Nat) : PathCommandsBuilder × Nat :=
  let b := b.begin_if_needed
  let id := toU32 b.cmds.length
  ({ b with cmds := b.cmds ++ [Verb.Line.code, to_], last_cmd := .Line }, id)

/-- `PathCommandsBuilder::quadratic_bezier_to`. -/
def quadratic_bezier_to (b : PathCommandsBuilder) (ctrl to_ : Nat) :
    PathCommandsBuilder × Nat :=
  let b := b.begin_if_needed
  let id := toU32 b.cmds.length
  ({ b with cmds := b.cmds ++ [Verb.Quadratic.code, ctrl, to_], last_cmd := .Quadratic },
   id)

/-- `PathCommandsBuilder::cubic_bezier_to`. -/
def cubic_bezier_to (b : PathCommandsBuilder) (ctrl1 ctrl2 to_ : Nat) :
    PathCommandsBuilder × Nat :=
  let b := b.begin_if_needed
  let id := toU32 b.cmds.length
  ({ b with cmds := b.cmds ++ [Verb.Cubic.code, ctrl1, ctrl2, to_], last_cmd := .Cubic },
   id)

/-- `PathCommandsBuilder::close`. -/
def close (b : PathCommandsBuilder) : PathCommandsBuilder × Nat :=
  let id := toU32 b.cmds.length
  match b.last_cmd with
  | .Close | .End => (b, id)
  | _ =>
    ({ b with
        cmds := b.cmds ++ [Verb.Close.code, b.first_event_index],
        last_cmd := .Close },
     id)

/-- `PathCommandsBuilder::build`: final auto-close, then freeze the cells. -/
def build (b : PathCommandsBuilder) : List Cell :=
  b.end_if_needed.cmds

end PathCommandsBuilder

/-- One public builder call, as enumerated by the claims. -/
inductive BuilderOp
  | move_to (to_ : Nat)
  | line_to (to_ : Nat)
  | quadratic_bezier_to (ctrl to_ : Nat)
  | cubic_bezier_to (ctrl1 ctrl2 to_ : Nat)
  | close
deriving DecidableEq, Repr

/-- Apply one builder call (the returned event id is discarded). -/
def applyOp (b : PathCommandsBuilder) : BuilderOp → PathCommandsBuilder
  | .move_to to_ => (b.move_to to_).1
  | .line_to to_ => (b.line_to to_).1
  | .quadratic_bezier_to c to_ => (b.quadratic_bezier_to c to_).1
  | .cubic_bezier_to c1 c2 to_ => (b.cubic_bezier_to c1 c2 to_).1
  | .close => b.close.1

/-- Run a sequence of builder calls from a given state. -/
def runOpsFrom (b : PathCommandsBuilder) (ops : List BuilderOp) : PathCommandsBuilder :=
  ops.foldl applyOp b

/-- Run a sequence of builder calls on a fresh builder. -/
def runOps (ops : List BuilderOp) : PathCommandsBuilder :=
  runOpsFrom .new ops

/-- The command stream obtained from a sequence of builder calls followed by
`build()`. -/
def buildCmds (ops : List BuilderOp) : List Cell :=
  (runOps ops).build

/-! ### Stream structure: events, grammar automata, structural invariants -/

/-- A decoded cell chunk: one event together with its payload cells. -/
inductive RawEvent
  | RBegin (ep : Cell)
  | RLine (ep : Cell)
  | RQuad (c ep : Cell)
  | RCubic (c1 c2 ep : Cell)
  | REnd (off : Cell)
  | RClose (off : Cell)
deriving DecidableEq, Repr

/-- Split a cell stream into event chunks.  Each chunk starts with a tag cell which
determines how many payload cells follow; `none` on a stream that is not a
concatenation of complete chunks. -/
def parseStream : List Cell → Option (List RawEvent)
  | [] => some []
  | 3 :: ep :: rest => (parseStream rest).map (RawEvent.RBegin ep :: ·)
  | 0 :: ep :: rest => (parseStream rest).map (RawEvent.RLine ep :: ·)
  | 1 :: c :: ep :: rest => (parseStream rest).map (RawEvent.RQuad c ep :: ·)
  | 2 :: c1 :: c2 :: ep :: rest => (parseStream rest).map (RawEvent.RCubic c1 c2 ep :: ·)
  | 5 :: off :: rest => (parseStream rest).map (RawEvent.REnd off :: ·)
  | 4 :: off :: rest => (parseStream rest).map (RawEvent.RClose off :: ·)
  | _ => none

/-- State of the sub-path grammar automaton: outside any sub-path / just after a
`Begin` with no edge yet / after at least one edge of an open sub-path. -/
inductive SpState
  | closed
  | begun
  | edges
deriving DecidableEq, Repr

/-- The grammar asserted by the claim: every sub-path is `Begin <edge>* (End|Close)`
— in particular every `Begin` is terminated before the next `Begin` or the end of
the stream, there are never two consecutive End/Close and never an edge without a
preceding `Begin`. -/
def claimScan : SpState → List RawEvent → Bool
  | .closed, [] => true
  | .closed, .RBegin _ :: rest => claimScan .begun rest
  | .closed, _ => false
  | .begun, .RLine _ :: rest => claimScan .begun rest
  | .begun, .RQuad _ _ :: rest => claimScan .begun rest
  | .begun, .RCubic _ _ _ :: rest => claimScan .begun rest
  | .begun, .REnd _ :: rest => claimScan .closed rest
  | .begun, .RClose _ :: rest => claimScan .closed rest
  | .begun, _ => false
  | .edges, _ => false

/-- The claimed structural invariant of claim C3, as a decidable predicate on cell
streams. -/
def claimOk (cells : List Cell) : Bool :=
  match parseStream cells with
  | some evs => claimScan .closed evs
  | none => false

/-- The amended grammar: every sub-path is `Begin <edge>* (End|Close)` or a bare
`Begin` with no edges, which may be left unterminated (immediately followed by the
next `Begin` or by the end of the stream). -/
def amendScan : SpState → List RawEvent → Bool
  | .closed, [] => true
  | .closed, .RBegin _ :: rest => amendScan .begun rest
  | .closed, _ => false
  | .begun, [] => true
  | .begun, .RBegin _ :: rest => amendScan .begun rest
  | .begun, .RLine _ :: rest => amendScan .edges rest
  | .begun, .RQuad _ _ :: rest => amendScan .edges rest
  | .begun, .RCubic _ _ _ :: rest => amendScan .edges rest
  | .begun, .REnd _ :: rest => amendScan .closed rest
  | .begun, .RClose _ :: rest => amendScan .closed rest
  | .edges, .RLine _ :: rest => amendScan .edges rest
  | .edges, .RQuad _ _ :: rest => amendScan .edges rest
  | .edges, .RCubic _ _ _ :: rest => amendScan .edges rest
  | .edges, .REnd _ :: rest => amendScan .closed rest
  | .edges, .RClose _ :: rest => amendScan .closed rest
  | .edges, _ => false

/-- The amended structural invariant, as a decidable predicate on cell streams. -/
def amendOk (cells : List Cell) : Bool :=
  match parseStream cells with
  | some evs => amendScan .closed evs
  | none => false

/-- `Reaches cells pos st f boff`: the first `pos` cells of `cells` form a complete,
well-formed sequence of event chunks leaving the sub-path automaton in state `st`;
when a sub-path is open, its `Begin` tag sits at offset `boff` with first endpoint
`f`, and every `End`/`Close` payload written so far is the `Begin` offset of its own
sub-path. -/
inductive Reaches (cells : List Cell) : Nat → SpState → Nat → Nat → Prop
  | nil : Reaches cells 0 .closed 0 0
  | rbegin {pos st f b ep} : Reaches cells pos st f b → st ≠ .edges →
      cells[pos]? = some 3 → cells[pos + 1]? = some ep →
      Reaches cells (pos + 2) .begun ep pos
  | rline {pos st f b ep} : Reaches cells pos st f b → st ≠ .closed →
      cells[pos]? = some 0 → cells[pos + 1]? = some ep →
      Reaches cells (pos + 2) .edges f b
  | rquad {pos st f b c ep} : Reaches cells pos st f b → st ≠ .closed →
      cells[pos]? = some 1 → cells[pos + 1]? = some c → cells[pos + 2]? = some ep →
      Reaches cells (pos + 3) .edges f b
  | rcubic {pos st f b c1 c2 ep} : Reaches cells pos st f b → st ≠ .closed →
      cells[pos]? = some 2 → cells[pos + 1]? = some c1 → cells[pos + 2]? = some c2 →
      cells[pos + 3]? = some ep →
      Reaches cells (pos + 4) .edges f b
  | rend {pos st f b} : Reaches cells pos st f b → st ≠ .closed →
      cells[pos]? = some 5 → cells[pos + 1]? = some b →
      Reaches cells (pos + 2) .closed f b
  | rclose {pos st f b} : Reaches cells pos st f b → st ≠ .closed →
      cells[pos]? = some 4 → cells[pos + 1]? = some b →
      Reaches cells (pos + 2) .closed f b

/-- `Tail cells pos f boff st`: the cells of `cells` from offset `pos` on are a
well-formed continuation of a stream whose sub-path automaton is in state `st`, the
currently open sub-path (when `st ≠ closed`) having its `Begin` at offset `boff`
with first endpoint `f`. -/
inductive Tail (cells : List Cell) : Nat → Nat → Nat → SpState → Prop
  | nilClosed {f b} : Tail cells cells.length f b .closed
  | nilBegun {f b} : Tail cells cells.length f b .begun
  | tbegin {pos f b st ep} : st ≠ .edges →
      cells[pos]? = some 3 → cells[pos + 1]? = some ep →
      Tail cells (pos + 2) ep pos .begun → Tail cells pos f b st
  | tline {pos f b st ep} : st ≠ .closed →
      cells[pos]? = some 0 → cells[pos + 1]? = some ep →
      Tail cells (pos + 2) f b .edges → Tail cells pos f b st
  | tquad {pos f b st c ep} : st ≠ .closed →
      cells[pos]? = some 1 → cells[pos + 1]? = some c → cells[pos + 2]? = some ep →
      Tail cells (pos + 3) f b .edges → Tail cells pos f b st
  | tcubic {pos f b st c1 c2 ep} : st ≠ .closed →
      cells[pos]? = some 2 → cells[pos + 1]? = some c1 → cells[pos + 2]? = some c2 →
      cells[pos + 3]? = some ep →
      Tail cells (pos + 4) f b .edges → Tail cells pos f b st
  | tend {pos f b st} : st ≠ .closed →
      cells[pos]? = some 5 → cells[pos + 1]? = some b →
      Tail cells (pos + 2) f b .closed → Tail cells pos f b st
  | tclose {pos f b st} : st ≠ .closed →
      cells[pos]? = some 4 → cells[pos + 1]? = some b →
      Tail cells (pos + 2) f b .closed → Tail cells pos f b st

/-! ### Basic list-access lemmas -/

theorem getq_lt {α : Type} {l : List α} {n : Nat} {a : α} (h : l[n]? = some a) :
    n < l.length := by
  rcases List.getElem?_eq_some.mp h with ⟨hn, _⟩
  exact hn

theorem getq_append {α : Type} {l l' : List α} {n : Nat} (h : n < l.length) :
    (l ++ l')[n]? = l[n]? :=
  List.getElem?_append_left h

theorem getq_fst {α : Type} (l r : List α) (x : α) : (l ++ x :: r)[l.length]? = some x := by
  rw [List.getElem?_append_right (Nat.le_refl _)]
  simp

theorem getq_snd {α : Type} (l r : List α) (x y : α) :
    (l ++ x :: y :: r)[l.length + 1]? = some y := by
  rw [List.getElem?_append_right (Nat.le_succ_of_le (Nat.le_refl _))]
  simp

theorem drop_cons {α : Type} {l : List α} {n : Nat} {a : α} (h : l[n]? = some a) :
    l.drop n = a :: l.drop (n + 1) := by
  rcases List.getElem?_eq_some.mp h with ⟨hn, ha⟩
  rw [List.drop_eq_getElem_cons hn, ha]

theorem drop_two {l : List Cell} {n : Nat} {a b : Cell}
    (h1 : l[n]? = some a) (h2 : l[n + 1]? = some b) :
    l.drop n = a :: b :: l.drop (n + 2) := by
  rw [drop_cons h1, drop_cons h2]

theorem drop_three {l : List Cell} {n : Nat} {a b c : Cell}
    (h1 : l[n]? = some a) (h2 : l[n + 1]? = some b) (h3 : l[n + 2]? = some c) :
    l.drop n = a :: b :: c :: l.drop (n + 3) := by
  rw [drop_cons h1, drop_cons h2]
  have h3' : l[n + 1 + 1]? = some c := by
    have : n + 1 + 1 = n + 2 := rfl
    rw [this]; exact h3
  rw [drop_cons h3']

theorem drop_four {l : List Cell} {n : Nat} {a b c d : Cell}
    (h1 : l[n]? = some a) (h2 : l[n + 1]? = some b) (h3 : l[n + 2]? = some c)
    (h4 : l[n + 3]? = some d) :
    l.drop n = a :: b :: c :: d :: l.drop (n + 4) := by
  rw [drop_three h1 h2 h3]
  have h4' : l[n + 2 + 1]? = some d := by
    have : n + 2 + 1 = n + 3 := rfl
    rw [this]; exact h4
  rw [drop_cons h4']

/-! ### Structural facts about `Reaches` and `Tail` -/

theorem Reaches.reach_le {cells : List Cell} {pos st f b} (h : Reaches cells pos st f b) :
    pos ≤ cells.length := by
  induction h with
  | nil => exact Nat.zero_le _
  | rbegin _ _ _ hep _ => exact getq_lt hep
  | rline _ _ _ hep _ => exact getq_lt hep
  | rquad _ _ _ _ hep _ => exact getq_lt hep
  | rcubic _ _ _ _ _ hep _ => exact getq_lt hep
  | rend _ _ _ hoff _ => exact getq_lt hoff
  | rclose _ _ _ hoff _ => exact getq_lt hoff

theorem Tail.tail_le {cells : List Cell} {pos f b st} (h : Tail cells pos f b st) :
    pos ≤ cells.length := by
  induction h with
  | nilClosed => exact Nat.le_refl _
  | nilBegun => exact Nat.le_refl _
  | tbegin _ htag _ _ _ => exact Nat.le_of_lt (getq_lt htag)
  | tline _ htag _ _ _ => exact Nat.le_of_lt (getq_lt htag)
  | tquad _ htag _ _ _ _ => exact Nat.le_of_lt (getq_lt htag)
  | tcubic _ htag _ _ _ _ _ => exact Nat.le_of_lt (getq_lt htag)
  | tend _ htag _ _ _ => exact Nat.le_of_lt (getq_lt htag)
  | tclose _ htag _ _ _ => exact Nat.le_of_lt (getq_lt htag)

/-- `Reaches` only inspects cells below `pos`, so it is stable under appending. -/
theorem Reaches.append {cells : List Cell} (ext : List Cell) {pos st f b}
    (h : Reaches cells pos st f b) : Reaches (cells ++ ext) pos st f b := by
  induction h with
  | nil => exact .nil
  | rbegin _ hst htag hep ih =>
      exact .rbegin ih hst ((getq_append (getq_lt htag)).trans htag)
        ((getq_append (getq_lt hep)).trans hep)
  | rline _ hst htag hep ih =>
      exact .rline ih hst ((getq_append (getq_lt htag)).trans htag)
        ((getq_append (getq_lt hep)).trans hep)
  | rquad _ hst htag hc hep ih =>
      exact .rquad ih hst ((getq_append (getq_lt htag)).trans htag)
        ((getq_append (getq_lt hc)).trans hc) ((getq_append (getq_lt hep)).trans hep)
  | rcubic _ hst htag hc1 hc2 hep ih =>
      exact .rcubic ih hst ((getq_append (getq_lt htag)).trans htag)
        ((getq_append (getq_lt hc1)).trans hc1) ((getq_append (getq_lt hc2)).trans hc2)
        ((getq_append (getq_lt hep)).trans hep)
  | rend _ hst htag hoff ih =>
      exact .rend ih hst ((getq_append (getq_lt htag)).trans htag)
        ((getq_append (getq_lt hoff)).trans hoff)
  | rclose _ hst htag hoff ih =>
      exact .rclose ih hst ((getq_append (getq_lt htag)).trans htag)
        ((getq_append (getq_lt hoff)).trans hoff)

/-- Compose a complete well-formed prefix with a well-formed tail. -/
theorem Reaches.tail {cells : List Cell} {pos st f b}
    (h : Reaches cells pos st f b) :
    Tail cells pos f b st → Tail cells 0 0 0 .closed := by
  induction h with
  | nil => exact fun t => t
  | rbegin _ hst htag hep ih => exact fun t => ih (.tbegin hst htag hep t)
  | rline _ hst htag hep ih => exact fun t => ih (.tline hst htag hep t)
  | rquad _ hst htag hc hep ih => exact fun t => ih (.tquad hst htag hc hep t)
  | rcubic _ hst htag hc1 hc2 hep ih => exact fun t => ih (.tcubic hst htag hc1 hc2 hep t)
  | rend _ hst htag hoff ih => exact fun t => ih (.tend hst htag hoff t)
  | rclose _ hst htag hoff ih => exact fun t => ih (.tclose hst htag hoff t)

theorem getq_3rd {α : Type} (l r : List α) (x y z : α) :
    (l ++ x :: y :: z :: r)[l.length + 2]? = some z := by
  rw [List.getElem?_append_right (by omega)]
  have : l.length + 2 - l.length = 2 := by omega
  rw [this]
  simp

theorem getq_4th {α : Type} (l r : List α) (x y z w : α) :
    (l ++ x :: y :: z :: w :: r)[l.length + 3]? = some w := by
  rw [List.getElem?_append_right (by omega)]
  have : l.length + 3 - l.length = 3 := by omega
  rw [this]
  simp

/-! ### The builder maintains the structural invariant -/

/-- The automaton state corresponding to the builder's `last_cmd` field. -/
def stOf : Verb → SpState
  | .Begin => .begun
  | .Line | .Quadratic | .Cubic => .edges
  | .Close | .End => .closed

/-- Builder invariant: the accumulated cells are a complete well-formed chunk
sequence whose automaton state matches `last_cmd`, with `first_event_index`
pointing at the `Begin` of the open sub-path. -/
def BInv (b : PathCommandsBuilder) : Prop :=
  ∃ f, Reaches b.cmds b.cmds.length (stOf b.last_cmd) f b.first_event_index

theorem BInv.new : BInv PathCommandsBuilder.new := ⟨0, .nil⟩

theorem end_if_needed_reaches {b : PathCommandsBuilder} (hb : BInv b) :
    ∃ f st, Reaches b.end_if_needed.cmds b.end_if_needed.cmds.length st f
      b.first_event_index ∧ st ≠ .edges := by
  obtain ⟨f, hr⟩ := hb
  cases hlc : b.last_cmd with
  | Line | Quadratic | Cubic =>
      rw [hlc] at hr
      refine ⟨f, .closed, ?_, by simp⟩
      simp only [PathCommandsBuilder.end_if_needed, hlc]
      have hr' := hr.append [Verb.End.code, b.first_event_index]
      have h5 := getq_fst b.cmds [b.first_event_index] Verb.End.code
      have hoff := getq_snd b.cmds [] Verb.End.code b.first_event_index
      have hend := Reaches.rend hr' (by simp [stOf]) h5 hoff
      simpa using hend
  | Begin =>
      rw [hlc] at hr
      exact ⟨f, .begun, by simp only [PathCommandsBuilder.end_if_needed, hlc]; exact hr,
        by simp⟩
  | Close =>
      rw [hlc] at hr
      exact ⟨f, .closed, by simp only [PathCommandsBuilder.end_if_needed, hlc]; exact hr,
        by simp⟩
  | End =>
      rw [hlc] at hr
      exact ⟨f, .closed, by simp only [PathCommandsBuilder.end_if_needed, hlc]; exact hr,
        by simp⟩

theorem move_to_BInv {b : PathCommandsBuilder} {t : Nat} (hb : BInv b)
    (hlen : (b.move_to t).1.cmds.length < 4294967296) : BInv (b.move_to t).1 := by
  obtain ⟨f, st, hr, hst⟩ := end_if_needed_reaches hb
  simp only [PathCommandsBuilder.move_to] at hlen ⊢
  set b1 := b.end_if_needed with hb1
  have h3 := getq_fst b1.cmds [t] Verb.Begin.code
  have hep := getq_snd b1.cmds [] Verb.Begin.code t
  have hr' := hr.append [Verb.Begin.code, t]
  have hbeg := Reaches.rbegin hr' hst h3 hep
  have hlen1 : b1.cmds.length < 4294967296 := by
    simp at hlen
    omega
  refine ⟨t, ?_⟩
  have htu : toU32 b1.cmds.length = b1.cmds.length := Nat.mod_eq_of_lt hlen1
  simp only [stOf, htu]
  simpa using hbeg

theorem begin_if_needed_reaches {b : PathCommandsBuilder} (hb : BInv b)
    (hlen : b.begin_if_needed.cmds.length < 4294967296) :
    ∃ f st, Reaches b.begin_if_needed.cmds b.begin_if_needed.cmds.length st f
      b.begin_if_needed.first_event_index ∧ st ≠ .closed := by
  cases hlc : b.last_cmd with
  | Close | End =>
      have hmv : b.begin_if_needed = (b.move_to (b.cmds.getLast?.getD 0)).1 := by
        simp only [PathCommandsBuilder.begin_if_needed, hlc]
      rw [hmv] at hlen ⊢
      obtain ⟨f, hr⟩ := move_to_BInv hb hlen
      exact ⟨f, .begun, hr, by simp⟩
  | Begin =>
      obtain ⟨f, hr⟩ := hb
      rw [hlc] at hr
      have hid : b.begin_if_needed = b := by
        simp only [PathCommandsBuilder.begin_if_needed, hlc]
      rw [hid]
      exact ⟨f, .begun, hr, by simp⟩
  | Line =>
      obtain ⟨f, hr⟩ := hb
      rw [hlc] at hr
      have hid : b.begin_if_needed = b := by
        simp only [PathCommandsBuilder.begin_if_needed, hlc]
      rw [hid]
      exact ⟨f, .edges, hr, by simp⟩
  | Quadratic =>
      obtain ⟨f, hr⟩ := hb
      rw [hlc] at hr
      have hid : b.begin_if_needed = b := by
        simp only [PathCommandsBuilder.begin_if_needed, hlc]
      rw [hid]
      exact ⟨f, .edges, hr, by simp⟩
  | Cubic =>
      obtain ⟨f, hr⟩ := hb
      rw [hlc] at hr
      have hid : b.begin_if_needed = b := by
        simp only [PathCommandsBuilder.begin_if_needed, hlc]
      rw [hid]
      exact ⟨f, .edges, hr, by simp⟩

theorem line_to_BInv {b : PathCommandsBuilder} {t : Nat} (hb : BInv b)
    (hlen : (b.line_to t).1.cmds.length < 4294967296) : BInv (b.line_to t).1 := by
  simp only [PathCommandsBuilder.line_to] at hlen ⊢
  have hlen1 : b.begin_if_needed.cmds.length < 4294967296 := by
    simp at hlen; omega
  obtain ⟨f, st, hr, hst⟩ := begin_if_needed_reaches hb hlen1
  set b1 := b.begin_if_needed
  have h0 := getq_fst b1.cmds [t] Verb.Line.code
  have hep := getq_snd b1.cmds [] Verb.Line.code t
  have hr' := hr.append [Verb.Line.code, t]
  have hline := Reaches.rline hr' hst h0 hep
  refine ⟨f, ?_⟩
  simp only [stOf]
  simpa using hline

theorem quadratic_bezier_to_BInv {b : PathCommandsBuilder} {c t : Nat} (hb : BInv b)
    (hlen : (b.quadratic_bezier_to c t).1.cmds.length < 4294967296) :
    BInv (b.quadratic_bezier_to c t).1 := by
  simp only [PathCommandsBuilder.quadratic_bezier_to] at hlen ⊢
  have hlen1 : b.begin_if_needed.cmds.length < 4294967296 := by
    simp at hlen; omega
  obtain ⟨f, st, hr, hst⟩ := begin_if_needed_reaches hb hlen1
  set b1 := b.begin_if_needed
  have h1 := getq_fst b1.cmds [c, t] Verb.Quadratic.code
  have hc := getq_snd b1.cmds [t] Verb.Quadratic.code c
  have hep := getq_3rd b1.cmds [] Verb.Quadratic.code c t
  have hr' := hr.append [Verb.Quadratic.code, c, t]
  have hq := Reaches.rquad hr' hst h1 hc hep
  refine ⟨f, ?_⟩
  simp only [stOf]
  have : (b1.cmds ++ [Verb.Quadratic.code, c, t]).length = b1.cmds.length + 3 := by
    simp
  rw [this]
  exact hq

theorem cubic_bezier_to_BInv {b : PathCommandsBuilder} {c1 c2 t : Nat} (hb : BInv b)
    (hlen : (b.cubic_bezier_to c1 c2 t).1.cmds.length < 4294967296) :
    BInv (b.cubic_bezier_to c1 c2 t).1 := by
  simp only [PathCommandsBuilder.cubic_bezier_to] at hlen ⊢
  have hlen1 : b.begin_if_needed.cmds.length < 4294967296 := by
    simp at hlen; omega
  obtain ⟨f, st, hr, hst⟩ := begin_if_needed_reaches hb hlen1
  set b1 := b.begin_if_needed
  have h2 := getq_fst b1.cmds [c1, c2, t] Verb.Cubic.code
  have hc1 := getq_snd b1.cmds [c2, t] Verb.Cubic.code c1
  have hc2 := getq_3rd b1.cmds [t] Verb.Cubic.code c1 c2
  have hep := getq_4th b1.cmds [] Verb.Cubic.code c1 c2 t
  have hr' := hr.append [Verb.Cubic.code, c1, c2, t]
  have hq := Reaches.rcubic hr' hst h2 hc1 hc2 hep
  refine ⟨f, ?_⟩
  simp only [stOf]
  have : (b1.cmds ++ [Verb.Cubic.code, c1, c2, t]).length = b1.cmds.length + 4 := by
    simp
  rw [this]
  exact hq

theorem close_BInv {b : PathCommandsBuilder} (hb : BInv b) : BInv b.close.1 := by
  cases hlc : b.last_cmd with
  | Close | End =>
      have hid : b.close.1 = b := by
        simp only [PathCommandsBuilder.close, hlc]
      rw [hid]; exact hb
  | Begin =>
      obtain ⟨f, hr⟩ := hb
      rw [hlc] at hr
      simp only [PathCommandsBuilder.close, hlc]
      have h4 := getq_fst b.cmds [b.first_event_index] Verb.Close.code
      have hoff := getq_snd b.cmds [] Verb.Close.code b.first_event_index
      have hr' := hr.append [Verb.Close.code, b.first_event_index]
      have hcl := Reaches.rclose hr' (by simp [stOf]) h4 hoff
      exact ⟨f, by simp only [stOf]; simpa using hcl⟩
  | Line =>
      obtain ⟨f, hr⟩ := hb
      rw [hlc] at hr
      simp only [PathCommandsBuilder.close, hlc]
      have h4 := getq_fst b.cmds [b.first_event_index] Verb.Close.code
      have hoff := getq_snd b.cmds [] Verb.Close.code b.first_event_index
      have hr' := hr.append [Verb.Close.code, b.first_event_index]
      have hcl := Reaches.rclose hr' (by simp [stOf]) h4 hoff
      exact ⟨f, by simp only [stOf]; simpa using hcl⟩
  | Quadratic =>
      obtain ⟨f, hr⟩ := hb
      rw [hlc] at hr
      simp only [PathCommandsBuilder.close, hlc]
      have h4 := getq_fst b.cmds [b.first_event_index] Verb.Close.code
      have hoff := getq_snd b.cmds [] Verb.Close.code b.first_event_index
      have hr' := hr.append [Verb.Close.code, b.first_event_index]
      have hcl := Reaches.rclose hr' (by simp [stOf]) h4 hoff
      exact ⟨f, by simp only [stOf]; simpa using hcl⟩
  | Cubic =>
      obtain ⟨f, hr⟩ := hb
      rw [hlc] at hr
      simp only [PathCommandsBuilder.close, hlc]
      have h4 := getq_fst b.cmds [b.first_event_index] Verb.Close.code
      have hoff := getq_snd b.cmds [] Verb.Close.code b.first_event_index
      have hr' := hr.append [Verb.Close.code, b.first_event_index]
      have hcl := Reaches.rclose hr' (by simp [stOf]) h4 hoff
      exact ⟨f, by simp only [stOf]; simpa using hcl⟩

theorem end_if_needed_len (b : PathCommandsBuilder) :
    b.cmds.length ≤ b.end_if_needed.cmds.length := by
  cases hlc : b.last_cmd <;> simp [PathCommandsBuilder.end_if_needed, hlc]

theorem move_to_len (b : PathCommandsBuilder) (t : Nat) :
    b.cmds.length ≤ (b.move_to t).1.cmds.length := by
  simp only [PathCommandsBuilder.move_to]
  have := end_if_needed_len b
  simp
  omega

theorem begin_if_needed_len (b : PathCommandsBuilder) :
    b.cmds.length ≤ b.begin_if_needed.cmds.length := by
  cases hlc : b.last_cmd <;>
    simp only [PathCommandsBuilder.begin_if_needed, hlc] <;>
    first
      | exact Nat.le_refl _
      | exact move_to_len b _

theorem applyOp_len (b : PathCommandsBuilder) (op : BuilderOp) :
    b.cmds.length ≤ (applyOp b op).cmds.length := by
  cases op with
  | move_to t => exact move_to_len b t
  | line_to t =>
      simp only [applyOp, PathCommandsBuilder.line_to]
      have := begin_if_needed_len b
      simp
      omega
  | quadratic_bezier_to c t =>
      simp only [applyOp, PathCommandsBuilder.quadratic_bezier_to]
      have := begin_if_needed_len b
      simp
      omega
  | cubic_bezier_to c1 c2 t =>
      simp only [applyOp, PathCommandsBuilder.cubic_bezier_to]
      have := begin_if_needed_len b
      simp
      omega
  | close =>
      cases hlc : b.last_cmd <;>
        simp [applyOp, PathCommandsBuilder.close, hlc]

theorem runOpsFrom_len (b : PathCommandsBuilder) (ops : List BuilderOp) :
    b.cmds.length ≤ (runOpsFrom b ops).cmds.length := by
  induction ops generalizing b with
  | nil => exact Nat.le_refl _
  | cons op ops ih =>
      exact Nat.le_trans (applyOp_len b op)
        (by simpa [runOpsFrom] using ih (applyOp b op))

theorem runOpsFrom_BInv {b : PathCommandsBuilder} (ops : List BuilderOp) (hb : BInv b)
    (hlen : (runOpsFrom b ops).cmds.length < 4294967296) :
    BInv (runOpsFrom b ops) := by
  induction ops generalizing b with
  | nil => exact hb
  | cons op ops ih =>
      have hstep : (runOpsFrom b (op :: ops)) = runOpsFrom (applyOp b op) ops := rfl
      rw [hstep] at hlen ⊢
      have hlen1 : (applyOp b op).cmds.length < 4294967296 :=
        Nat.lt_of_le_of_lt (runOpsFrom_len _ ops) hlen
      refine ih ?_ hlen
      cases op with
      | move_to t => exact move_to_BInv hb hlen1
      | line_to t => exact line_to_BInv hb hlen1
      | quadratic_bezier_to c t => exact quadratic_bezier_to_BInv hb hlen1
      | cubic_bezier_to c1 c2 t => exact cubic_bezier_to_BInv hb hlen1
      | close => exact close_BInv hb

theorem build_len (b : PathCommandsBuilder) : b.cmds.length ≤ b.build.length :=
  end_if_needed_len b

/-- Every built command stream (of representable size) is a well-formed tail from
offset 0. -/
theorem buildCmds_tail (ops : List BuilderOp)
    (hlen : (buildCmds ops).length < 4294967296) :
    Tail (buildCmds ops) 0 0 0 .closed := by
  have hlen0 : (runOps ops).cmds.length < 4294967296 :=
    Nat.lt_of_le_of_lt (build_len _) hlen
  have hb : BInv (runOps ops) := runOpsFrom_BInv ops BInv.new hlen0
  obtain ⟨f, st, hr, hst⟩ := end_if_needed_reaches hb
  have ht : Tail (buildCmds ops) (buildCmds ops).length f
      (runOps ops).first_event_index st := by
    cases st with
    | closed => exact .nilClosed
    | begun => exact .nilBegun
    | edges => exact absurd rfl hst
  exact hr.tail ht

/-- A well-formed tail parses into chunks accepted by the amended grammar. -/
theorem Tail.scan {cells : List Cell} {pos f b st} (h : Tail cells pos f b st) :
    ∃ evs, parseStream (cells.drop pos) = some evs ∧ amendScan st evs = true := by
  induction h with
  | nilClosed => exact ⟨[], by simp [parseStream], rfl⟩
  | nilBegun => exact ⟨[], by simp [parseStream], rfl⟩
  | tbegin hst h3 hep htl ih =>
      rename_i pos1 f1 b1 st1 ep1
      obtain ⟨evs, hp, hs⟩ := ih
      refine ⟨.RBegin ep1 :: evs, ?_, ?_⟩
      · rw [drop_two h3 hep]
        simp [parseStream, hp]
      · cases st1 with
        | closed => exact hs
        | begun => exact hs
        | edges => exact absurd rfl hst
  | tline hst h0 hep htl ih =>
      rename_i pos1 f1 b1 st1 ep1
      obtain ⟨evs, hp, hs⟩ := ih
      refine ⟨.RLine ep1 :: evs, ?_, ?_⟩
      · rw [drop_two h0 hep]
        simp [parseStream, hp]
      · cases st1 with
        | closed => exact absurd rfl hst
        | begun => exact hs
        | edges => exact hs
  | tquad hst h1 hc hep htl ih =>
      rename_i pos1 f1 b1 st1 c1 ep1
      obtain ⟨evs, hp, hs⟩ := ih
      refine ⟨.RQuad c1 ep1 :: evs, ?_, ?_⟩
      · rw [drop_three h1 hc hep]
        simp [parseStream, hp]
      · cases st1 with
        | closed => exact absurd rfl hst
        | begun => exact hs
        | edges => exact hs
  | tcubic hst h2 hc1 hc2 hep htl ih =>
      rename_i pos1 f1 b1 st1 cc1 cc2 ep1
      obtain ⟨evs, hp, hs⟩ := ih
      refine ⟨.RCubic cc1 cc2 ep1 :: evs, ?_, ?_⟩
      · rw [drop_four h2 hc1 hc2 hep]
        simp [parseStream, hp]
      · cases st1 with
        | closed => exact absurd rfl hst
        | begun => exact hs
        | edges => exact hs
  | tend hst h5 hoff htl ih =>
      rename_i pos1 f1 b1 st1
      obtain ⟨evs, hp, hs⟩ := ih
      refine ⟨.REnd b1 :: evs, ?_, ?_⟩
      · rw [drop_two h5 hoff]
        simp [parseStream, hp]
      · cases st1 with
        | closed => exact absurd rfl hst
        | begun => exact hs
        | edges => exact hs
  | tclose hst h4 hoff htl ih =>
      rename_i pos1 f1 b1 st1
      obtain ⟨evs, hp, hs⟩ := ih
      refine ⟨.RClose b1 :: evs, ?_, ?_⟩
      · rw [drop_two h4 hoff]
        simp [parseStream, hp]
      · cases st1 with
        | closed => exact absurd rfl hst
        | begun => exact hs
        | edges => exact hs

/-! ### Agreement of the iterator with random-access decoding -/

/-- Whether an `IdEvent` is an End/Close event. -/
def IdEvent.isEnd : IdEvent → Bool
  | .End _ _ _ _ => true
  | _ => false

/-- Whether an `IdEvent` is a Begin event. -/
def IdEvent.isBegin : IdEvent → Bool
  | .Begin _ => true
  | _ => false

/-- The number of cells occupied by an event's encoding. -/
def eventCells : IdEvent → Nat
  | .Begin _ => 2
  | .Line _ _ _ => 2
  | .Quadratic _ _ _ _ => 3
  | .Cubic _ _ _ _ _ => 4
  | .End _ _ _ _ => 2

/-- All the per-event facts claims C1 and C8 need, accumulated along a run of the
iterator: random access agrees with each yielded event, `next_event_id_in_path`
points at the next yielded id (`none` at the end), `next_event_id_in_sub_path`
points at the next tag cell — except on End/Close where it points back at the
current sub-path's `Begin` offset `boff` — and the positions of consecutive yields
differ by the event's cell count. -/
def GoodList (cells : List Cell) : Nat → List (Nat × IdEvent) → Prop
  | _, [] => True
  | boff, (p, ev) :: rest =>
      event cells p = some ev ∧
      next_event_id_in_path cells p = some (rest.head?.map Prod.fst) ∧
      (∀ x ∈ rest.head?, x.1 = p + eventCells ev) ∧
      next_event_id_in_sub_path cells p =
        some (if ev.isEnd then boff else p + eventCells ev) ∧
      GoodList cells (if ev.isBegin then p else boff) rest

/-- The head of an iterator run sits at the start index. -/
theorem id_events_aux_head {l : List Cell} {i p f : Nat} {x : Nat × IdEvent}
    {r : List (Nat × IdEvent)} (h : id_events_aux l i p f = x :: r) : x.1 = i := by
  unfold id_events_aux at h
  split at h <;> first
    | (injection h with h1 _; rw [← h1])
    | exact absurd h (by simp)

/-- At an offset that carries a well-formed tail, the iterator either is finished
(offset at the very end) or yields an event at exactly that offset. -/
theorem rest_shape {cells : List Cell} {q fb bb : Nat} {stb : SpState}
    (ht : Tail cells q fb bb stb) (p0 f0 : Nat) :
    (q = cells.length ∧ id_events_aux (cells.drop q) q p0 f0 = []) ∨
    (q < cells.length ∧
      ∃ y r, id_events_aux (cells.drop q) q p0 f0 = (q, y) :: r) := by
  cases ht with
  | nilClosed =>
      exact .inl ⟨rfl, by simp [id_events_aux]⟩
  | nilBegun =>
      exact .inl ⟨rfl, by simp [id_events_aux]⟩
  | tbegin hst h3 hep ht' =>
      rename_i ep1
      refine .inr ⟨getq_lt h3, .Begin ep1,
        id_events_aux (cells.drop (q + 2)) (toU32 (q + 2)) ep1 ep1, ?_⟩
      rw [drop_two h3 hep]
      simp [id_events_aux]
  | tline hst h0 hep ht' =>
      rename_i ep1
      refine .inr ⟨getq_lt h0, .Line p0 ep1 q,
        id_events_aux (cells.drop (q + 2)) (toU32 (q + 2)) ep1 f0, ?_⟩
      rw [drop_two h0 hep]
      simp [id_events_aux]
  | tquad hst h1 hc hep ht' =>
      rename_i c1 ep1
      refine .inr ⟨getq_lt h1, .Quadratic p0 c1 ep1 q,
        id_events_aux (cells.drop (q + 3)) (toU32 (q + 3)) ep1 f0, ?_⟩
      rw [drop_three h1 hc hep]
      simp [id_events_aux]
  | tcubic hst h2 hc1 hc2 hep ht' =>
      rename_i cc1 cc2 ep1
      refine .inr ⟨getq_lt h2, .Cubic p0 cc1 cc2 ep1 q,
        id_events_aux (cells.drop (q + 4)) (toU32 (q + 4)) ep1 f0, ?_⟩
      rw [drop_four h2 hc1 hc2 hep]
      simp [id_events_aux]
  | tend hst h5 hoff ht' =>
      refine .inr ⟨getq_lt h5, .End p0 f0 false q,
        id_events_aux (cells.drop (q + 2)) (toU32 (q + 2)) f0 f0, ?_⟩
      rw [drop_two h5 hoff]
      simp [id_events_aux]
  | tclose hst h4 hoff ht' =>
      refine .inr ⟨getq_lt h4, .End p0 f0 true q,
        id_events_aux (cells.drop (q + 2)) (toU32 (q + 2)) f0 f0, ?_⟩
      rw [drop_two h4 hoff]
      simp [id_events_aux]

theorem getVerb_0 : getVerb 0 = some Verb.Line := rfl
theorem getVerb_1 : getVerb 1 = some Verb.Quadratic := rfl
theorem getVerb_2 : getVerb 2 = some Verb.Cubic := rfl
theorem getVerb_3 : getVerb 3 = some Verb.Begin := rfl
theorem getVerb_4 : getVerb 4 = some Verb.Close := rfl
theorem getVerb_5 : getVerb 5 = some Verb.End := rfl

/-- Main agreement lemma: running the iterator over a well-formed tail produces a
list of (id, event) pairs on which random access, `next_event_id_in_path` and
`next_event_id_in_sub_path` all agree with the iteration. -/
theorem tail_good {cells : List Cell} (hB : cells.length + 4 ≤ 4294967296)
    {pos f b : Nat} {st : SpState} (h : Tail cells pos f b st) :
    ∀ prev : Nat,
      (st ≠ .closed → 1 ≤ pos ∧ cells[pos - 1]? = some prev) →
      (st ≠ .closed → cells[b]? = some 3 ∧ cells[b + 1]? = some f ∧ b + 2 ≤ pos) →
      GoodList cells b (id_events_aux (cells.drop pos) pos prev f) := by
  induction h with
  | nilClosed =>
      intro prev _ _
      simp [id_events_aux, GoodList]
  | nilBegun =>
      intro prev _ _
      simp [id_events_aux, GoodList]
  | tbegin hst h3 hep htl ih =>
      rename_i pos1 f1 b1 st1 ep1
      intro prev _hprev _hfirst
      have hp2 : pos1 + 2 ≤ cells.length := htl.tail_le
      have htu : toU32 (pos1 + 2) = pos1 + 2 := Nat.mod_eq_of_lt (by omega)
      have htul : toU32 cells.length = cells.length := Nat.mod_eq_of_lt (by omega)
      rw [drop_two h3 hep]
      simp only [id_events_aux, htu, GoodList]
      refine ⟨?_, ?_, ?_, ?_, ?_⟩
      · simp [event, h3, getVerb_3, hep]
      · simp only [next_event_id_in_path, h3, getVerb_3, htu, htul]
        rcases rest_shape htl ep1 ep1 with ⟨heq, hnil⟩ | ⟨hlt, y, r, hcons⟩
        · rw [hnil]
          simp [heq]
        · rw [hcons]
          simp [hlt]
      · intro x hx
        rcases rest_shape htl ep1 ep1 with ⟨heq, hnil⟩ | ⟨hlt, y, r, hcons⟩
        · rw [hnil] at hx
          simp at hx
        · rw [hcons] at hx
          simp at hx
          rw [← hx]
          simp [eventCells]
      · simp [next_event_id_in_sub_path, h3, getVerb_3, htu, IdEvent.isEnd, eventCells]
      · simp only [IdEvent.isBegin, if_pos]
        exact ih ep1
          (fun _ => ⟨by omega, by simpa using hep⟩)
          (fun _ => ⟨h3, hep, by omega⟩)
  | tline hst h0 hep htl ih =>
      rename_i pos1 f1 b1 st1 ep1
      intro prev hprev hfirst
      have hprev1 := hprev hst
      have hfirst1 := hfirst hst
      have hpos0 : pos1 ≠ 0 := by omega
      have hp2 : pos1 + 2 ≤ cells.length := htl.tail_le
      have htu : toU32 (pos1 + 2) = pos1 + 2 := Nat.mod_eq_of_lt (by omega)
      have htul : toU32 cells.length = cells.length := Nat.mod_eq_of_lt (by omega)
      rw [drop_two h0 hep]
      simp only [id_events_aux, htu, GoodList]
      refine ⟨?_, ?_, ?_, ?_, ?_⟩
      · simp [event, h0, getVerb_0, if_neg hpos0, hprev1.2, hep]
      · simp only [next_event_id_in_path, h0, getVerb_0, htu, htul]
        rcases rest_shape htl ep1 f1 with ⟨heq, hnil⟩ | ⟨hlt, y, r, hcons⟩
        · rw [hnil]
          simp [heq]
        · rw [hcons]
          simp [hlt]
      · intro x hx
        rcases rest_shape htl ep1 f1 with ⟨heq, hnil⟩ | ⟨hlt, y, r, hcons⟩
        · rw [hnil] at hx
          simp at hx
        · rw [hcons] at hx
          simp at hx
          rw [← hx]
          simp [eventCells]
      · simp [next_event_id_in_sub_path, h0, getVerb_0, htu, IdEvent.isEnd, eventCells]
      · simp only [IdEvent.isBegin, if_neg]
        exact ih ep1
          (fun _ => ⟨by omega, by simpa using hep⟩)
          (fun _ => ⟨hfirst1.1, hfirst1.2.1, by omega⟩)
  | tquad hst h1 hc hep htl ih =>
      rename_i pos1 f1 b1 st1 c1 ep1
      intro prev hprev hfirst
      have hprev1 := hprev hst
      have hfirst1 := hfirst hst
      have hpos0 : pos1 ≠ 0 := by omega
      have hp3 : pos1 + 3 ≤ cells.length := htl.tail_le
      have htu : toU32 (pos1 + 3) = pos1 + 3 := Nat.mod_eq_of_lt (by omega)
      have htul : toU32 cells.length = cells.length := Nat.mod_eq_of_lt (by omega)
      rw [drop_three h1 hc hep]
      simp only [id_events_aux, htu, GoodList]
      refine ⟨?_, ?_, ?_, ?_, ?_⟩
      · simp [event, h1, getVerb_1, if_neg hpos0, hprev1.2, hc, hep]
      · simp only [next_event_id_in_path, h1, getVerb_1, htu, htul]
        rcases rest_shape htl ep1 f1 with ⟨heq, hnil⟩ | ⟨hlt, y, r, hcons⟩
        · rw [hnil]
          simp [heq]
        · rw [hcons]
          simp [hlt]
      · intro x hx
        rcases rest_shape htl ep1 f1 with ⟨heq, hnil⟩ | ⟨hlt, y, r, hcons⟩
        · rw [hnil] at hx
          simp at hx
        · rw [hcons] at hx
          simp at hx
          rw [← hx]
          simp [eventCells]
      · simp [next_event_id_in_sub_path, h1, getVerb_1, htu, IdEvent.isEnd, eventCells]
      · simp only [IdEvent.isBegin, if_neg]
        exact ih ep1
          (fun _ => ⟨by omega, by simpa using hep⟩)
          (fun _ => ⟨hfirst1.1, hfirst1.2.1, by omega⟩)
  | tcubic hst h2 hc1 hc2 hep htl ih =>
      rename_i pos1 f1 b1 st1 cc1 cc2 ep1
      intro prev hprev hfirst
      have hprev1 := hprev hst
      have hfirst1 := hfirst hst
      have hpos0 : pos1 ≠ 0 := by omega
      have hp4 : pos1 + 4 ≤ cells.length := htl.tail_le
      have htu : toU32 (pos1 + 4) = pos1 + 4 := Nat.mod_eq_of_lt (by omega)
      have htul : toU32 cells.length = cells.length := Nat.mod_eq_of_lt (by omega)
      rw [drop_four h2 hc1 hc2 hep]
      simp only [id_events_aux, htu, GoodList]
      refine ⟨?_, ?_, ?_, ?_, ?_⟩
      · simp [event, h2, getVerb_2, if_neg hpos0, hprev1.2, hc1, hc2, hep]
      · simp only [next_event_id_in_path, h2, getVerb_2, htu, htul]
        rcases rest_shape htl ep1 f1 with ⟨heq, hnil⟩ | ⟨hlt, y, r, hcons⟩
        · rw [hnil]
          simp [heq]
        · rw [hcons]
          simp [hlt]
      · intro x hx
        rcases rest_shape htl ep1 f1 with ⟨heq, hnil⟩ | ⟨hlt, y, r, hcons⟩
        · rw [hnil] at hx
          simp at hx
        · rw [hcons] at hx
          simp at hx
          rw [← hx]
          simp [eventCells]
      · simp [next_event_id_in_sub_path, h2, getVerb_2, htu, IdEvent.isEnd, eventCells]
      · simp only [IdEvent.isBegin, if_neg]
        exact ih ep1
          (fun _ => ⟨by omega, by simpa using hep⟩)
          (fun _ => ⟨hfirst1.1, hfirst1.2.1, by omega⟩)
  | tend hst h5 hoff htl ih =>
      rename_i pos1 f1 b1 st1
      intro prev hprev hfirst
      have hprev1 := hprev hst
      have hfirst1 := hfirst hst
      have hpos0 : pos1 ≠ 0 := by omega
      have hp2 : pos1 + 2 ≤ cells.length := htl.tail_le
      have htu : toU32 (pos1 + 2) = pos1 + 2 := Nat.mod_eq_of_lt (by omega)
      have htul : toU32 cells.length = cells.length := Nat.mod_eq_of_lt (by omega)
      rw [drop_two h5 hoff]
      simp only [id_events_aux, htu, GoodList]
      refine ⟨?_, ?_, ?_, ?_, ?_⟩
      · simp [event, h5, getVerb_5, if_neg hpos0, hprev1.2, hoff, hfirst1.2.1]
      · simp only [next_event_id_in_path, h5, getVerb_5, htu, htul]
        rcases rest_shape htl f1 f1 with ⟨heq, hnil⟩ | ⟨hlt, y, r, hcons⟩
        · rw [hnil]
          simp [heq]
        · rw [hcons]
          simp [hlt]
      · intro x hx
        rcases rest_shape htl f1 f1 with ⟨heq, hnil⟩ | ⟨hlt, y, r, hcons⟩
        · rw [hnil] at hx
          simp at hx
        · rw [hcons] at hx
          simp at hx
          rw [← hx]
          simp [eventCells]
      · simp [next_event_id_in_sub_path, h5, getVerb_5, hoff, IdEvent.isEnd]
      · simp only [IdEvent.isBegin, if_neg]
        exact ih f1 (fun hc => absurd rfl hc) (fun hc => absurd rfl hc)
  | tclose hst h4 hoff htl ih =>
      rename_i pos1 f1 b1 st1
      intro prev hprev hfirst
      have hprev1 := hprev hst
      have hfirst1 := hfirst hst
      have hpos0 : pos1 ≠ 0 := by omega
      have hp2 : pos1 + 2 ≤ cells.length := htl.tail_le
      have htu : toU32 (pos1 + 2) = pos1 + 2 := Nat.mod_eq_of_lt (by omega)
      have htul : toU32 cells.length = cells.length := Nat.mod_eq_of_lt (by omega)
      rw [drop_two h4 hoff]
      simp only [id_events_aux, htu, GoodList]
      refine ⟨?_, ?_, ?_, ?_, ?_⟩
      · simp [event, h4, getVerb_4, if_neg hpos0, hprev1.2, hoff, hfirst1.2.1]
      · simp only [next_event_id_in_path, h4, getVerb_4, htu, htul]
        rcases rest_shape htl f1 f1 with ⟨heq, hnil⟩ | ⟨hlt, y, r, hcons⟩
        · rw [hnil]
          simp [heq]
        · rw [hcons]
          simp [hlt]
      · intro x hx
        rcases rest_shape htl f1 f1 with ⟨heq, hnil⟩ | ⟨hlt, y, r, hcons⟩
        · rw [hnil] at hx
          simp at hx
        · rw [hcons] at hx
          simp at hx
          rw [← hx]
          simp [eventCells]
      · simp [next_event_id_in_sub_path, h4, getVerb_4, hoff, IdEvent.isEnd]
      · simp only [IdEvent.isBegin, if_neg]
        exact ih f1 (fun hc => absurd rfl hc) (fun hc => absurd rfl hc)

/-- The whole built stream satisfies all per-event agreement facts. -/
theorem buildCmds_good (ops : List BuilderOp)
    (hB : (buildCmds ops).length + 4 ≤ 4294967296) :
    GoodList (buildCmds ops) 0 (id_events (buildCmds ops)) := by
  have ht : Tail (buildCmds ops) 0 0 0 .closed := buildCmds_tail ops (by omega)
  have h := tail_good hB ht 0 (fun hc => absurd rfl hc) (fun hc => absurd rfl hc)
  simpa [id_events] using h

theorem goodList_get {cells : List Cell} :
    ∀ {boff : Nat} {l : List (Nat × IdEvent)}, GoodList cells boff l →
    ∀ i p ev, l[i]? = some (p, ev) →
      event cells p = some ev ∧
      next_event_id_in_path cells p = some ((l[i + 1]?).map Prod.fst) := by
  intro boff l
  induction l generalizing boff with
  | nil =>
      intro _ i p ev hc
      simp at hc
  | cons x rest ih =>
      obtain ⟨p0, e0⟩ := x
      intro h i p ev hc
      simp only [GoodList] at h
      obtain ⟨hev, hnext, hhead, hsub, hrest⟩ := h
      cases i with
      | zero =>
          simp at hc
          obtain ⟨hp, he⟩ := hc
          subst hp
          subst he
          refine ⟨hev, ?_⟩
          rw [hnext]
          simp [List.head?_eq_getElem?]
      | succ i =>
          simp only [List.getElem?_cons_succ] at hc ⊢
          exact ih hrest i p ev hc

theorem goodList_end_ctx {cells : List Cell} :
    ∀ {b : Nat} {l : List (Nat × IdEvent)}, GoodList cells b l →
    ∀ (j p lst fs : Nat) (cl : Bool) (e : Nat),
      l[j]? = some (p, IdEvent.End lst fs cl e) →
    (∀ (k : Nat) (x : Nat × IdEvent), k < j → l[k]? = some x →
      x.2.isBegin = false) →
    next_event_id_in_sub_path cells p = some b := by
  intro b l
  induction l generalizing b with
  | nil =>
      intro _ j p lst fs cl e hc _
      simp at hc
  | cons x rest ih =>
      obtain ⟨p0, e0⟩ := x
      intro h j p lst fs cl e hc hnb
      simp only [GoodList] at h
      obtain ⟨hev, hnext, hhead, hsub, hrest⟩ := h
      cases j with
      | zero =>
          simp at hc
          obtain ⟨hp, he⟩ := hc
          subst hp
          subst he
          rw [hsub]
          simp [IdEvent.isEnd]
      | succ j =>
          simp only [List.getElem?_cons_succ] at hc
          have hb0 : e0.isBegin = false :=
            hnb 0 (p0, e0) (Nat.succ_pos _) (by simp)
          rw [hb0] at hrest
          simp only [Bool.false_eq_true, if_false] at hrest
          exact ih hrest j p lst fs cl e hc
            (fun k x hk hx => hnb (k + 1) x (Nat.succ_lt_succ hk)
              (by simpa using hx))

theorem goodList_sub_path_end {cells : List Cell} :
    ∀ {boff : Nat} {l : List (Nat × IdEvent)}, GoodList cells boff l →
    ∀ (i j p b f lst fs : Nat) (cl : Bool) (e : Nat),
      l[i]? = some (b, IdEvent.Begin f) →
      l[j]? = some (p, IdEvent.End lst fs cl e) →
      i < j →
      (∀ (k : Nat) (x : Nat × IdEvent), i < k → k < j → l[k]? = some x →
        x.2.isBegin = false) →
      next_event_id_in_sub_path cells p = some b := by
  intro boff l
  induction l generalizing boff with
  | nil =>
      intro _ i j p b f lst fs cl e hib _ _ _
      simp at hib
  | cons x rest ih =>
      obtain ⟨p0, e0⟩ := x
      intro h i j p b f lst fs cl e hib hje hij hnb
      simp only [GoodList] at h
      obtain ⟨hev, hnext, hhead, hsub, hrest⟩ := h
      cases i with
      | zero =>
          simp at hib
          obtain ⟨hp0, he0⟩ := hib
          subst hp0
          subst he0
          obtain ⟨j', rfl⟩ : ∃ j', j = j' + 1 :=
            ⟨j - 1, by omega⟩
          simp only [List.getElem?_cons_succ] at hje
          simp only [IdEvent.isBegin, if_pos] at hrest
          exact goodList_end_ctx hrest j' p lst fs cl e hje
            (fun k x hk hx => hnb (k + 1) x (Nat.succ_pos _)
              (Nat.succ_lt_succ hk) (by simpa using hx))
      | succ i =>
          obtain ⟨j', rfl⟩ : ∃ j', j = j' + 1 :=
            ⟨j - 1, by omega⟩
          simp only [List.getElem?_cons_succ] at hib hje
          exact ih hrest i j' p b f lst fs cl e hib hje (by omega)
            (fun k x hk hkj hx => hnb (k + 1) x (Nat.succ_lt_succ hk)
              (Nat.succ_lt_succ hkj) (by simpa using hx))

theorem goodList_sub_path_next {cells : List Cell} :
    ∀ {boff : Nat} {l : List (Nat × IdEvent)}, GoodList cells boff l →
    ∀ i p ev, l[i]? = some (p, ev) → ev.isEnd = false →
      next_event_id_in_sub_path cells p = some (p + eventCells ev) ∧
      ∀ q e, l[i + 1]? = some (q, e) → q = p + eventCells ev := by
  intro boff l
  induction l generalizing boff with
  | nil =>
      intro _ i p ev hc _
      simp at hc
  | cons x rest ih =>
      obtain ⟨p0, e0⟩ := x
      intro h i p ev hc hne
      simp only [GoodList] at h
      obtain ⟨hev, hnext, hhead, hsub, hrest⟩ := h
      cases i with
      | zero =>
          simp at hc
          obtain ⟨hp, he⟩ := hc
          subst hp
          subst he
          refine ⟨by rw [hsub, hne]; simp, ?_⟩
          intro q e hq
          simp only [List.getElem?_cons_succ] at hq
          have : (q, e) ∈ rest.head? := by
            rw [← List.head?_eq_getElem?] at hq
            simp [hq]
          exact hhead (q, e) this
      | succ i =>
          simp only [List.getElem?_cons_succ] at hc ⊢
          exact ih hrest i p ev hc hne

/-! ### Claim theorems for the path command stream -/

/-- C1: for every command stream produced by the builder (of `u32`-representable
size) and every event id `p` visited by sequential ID-event iteration, the direct
random-access decoding `event(p)` returns an `IdEvent` identical to the one the
iterator yields at that position, and `next_event_id_in_path(p)` returns `some` of
the id the iterator visits next — `none` when `p` is the last event of the
stream. -/
theorem C1_random_access_iteration_agreement (ops : List BuilderOp)
    (hB : (buildCmds ops).length + 4 ≤ 4294967296) :
    ∀ i p ev, (id_events (buildCmds ops))[i]? = some (p, ev) →
      event (buildCmds ops) p = some ev ∧
      next_event_id_in_path (buildCmds ops) p =
        some (((id_events (buildCmds ops))[i + 1]?).map Prod.fst) :=
  fun i p ev h => goodList_get (buildCmds_good ops hB) i p ev h

theorem C1_witness :
    (buildCmds [.move_to 0, .line_to 1, .close]).length + 4 ≤ 4294967296 ∧
    (event (buildCmds [.move_to 0, .line_to 1, .close]) 2 = some (.Line 0 1 2) ∧
      next_event_id_in_path (buildCmds [.move_to 0, .line_to 1, .close]) 2 =
        some (some 4)) := by
  refine ⟨by decide, ?_⟩
  have h := C1_random_access_iteration_agreement [.move_to 0, .line_to 1, .close]
    (by decide) 1 2 (.Line 0 1 2) (by decide)
  have he : (((id_events (buildCmds [.move_to 0, .line_to 1, .close]))[2]?).map
      Prod.fst) = some 4 := by decide
  exact ⟨h.1, by rw [h.2, he]⟩

/-- C3 fails as stated: a single `move_to` followed by `build()` produces the
two-cell stream `[Begin, endpoint]` whose `Begin` is never followed by an End/Close
(`end_if_needed` only fires after an edge command), violating the claimed
`Begin <edge>* (End|Close)` shape. -/
theorem C3_counterexample : claimOk (buildCmds [.move_to 0]) = false := by decide

/-- C3 (amended): for every sequence of builder calls followed by `build()` (of
`u32`-representable size), the stream parses into complete event chunks and every
sub-path is either `Begin <edge>* (End|Close)` or a bare `Begin` with no edges,
left unterminated (immediately followed by the next `Begin` or by the end of the
stream); a zero-cell stream is valid, there are never two consecutive End/Close
and never an edge command with no preceding `Begin`. -/
theorem C3_builder_stream_invariant (ops : List BuilderOp)
    (hB : (buildCmds ops).length < 4294967296) :
    amendOk (buildCmds ops) = true := by
  obtain ⟨evs, hp, hs⟩ := (buildCmds_tail ops hB).scan
  rw [List.drop_zero] at hp
  simp only [amendOk, hp]
  exact hs

theorem C3_witness :
    (buildCmds [.move_to 0, .line_to 1, .quadratic_bezier_to 2 3, .close,
        .move_to 4]).length < 4294967296 ∧
    amendOk (buildCmds [.move_to 0, .line_to 1, .quadratic_bezier_to 2 3, .close,
        .move_to 4]) = true :=
  ⟨by decide, C3_builder_stream_invariant _ (by decide)⟩

/-- C5 fails as stated: after `move_to`/`line_to`, the first `close()` returns the
offset of the `Close` tag it appends (4 here), while the second consecutive
`close()` returns the new write position (6), not the same EventId. -/
theorem C5_counterexample :
    ((runOps [.move_to 0, .line_to 1]).close.1.close).2 ≠
      (runOps [.move_to 0, .line_to 1]).close.2 := by decide

/-- C5 (amended): for every builder state, a second consecutive `close()` appends
no cell and leaves the whole builder state — in particular the stream — identical
to what one `close()` produces; it returns the degenerate EventId equal to the
current write position, which coincides with the first call's returned id exactly
when the sub-path was already closed/ended before the first call (otherwise the
first call returned the offset of the `Close` tag it appended, two cells less). -/
theorem C5_close_idempotent (b : PathCommandsBuilder) :
    (b.close.1.close).1 = b.close.1 ∧
    (b.close.1.close).2 = toU32 b.close.1.cmds.length ∧
    ((b.last_cmd = .Close ∨ b.last_cmd = .End) → (b.close.1.close).2 = b.close.2) := by
  cases hlc : b.last_cmd <;>
    simp [PathCommandsBuilder.close, hlc]

theorem C5_witness :
    ((runOps [.move_to 0, .close]).close.1.close).1 =
        (runOps [.move_to 0, .close]).close.1 ∧
    ((runOps [.move_to 0, .close]).close.1.close).2 =
        (runOps [.move_to 0, .close]).close.2 := by
  have h := C5_close_idempotent (runOps [.move_to 0, .close])
  exact ⟨h.1, by rw [h.2.2 (Or.inl (by decide))]⟩

/-- C8: in every built command stream (of `u32`-representable size),
`next_event_id_in_sub_path` on the terminal End/Close event of a sub-path — an End
event preceded in iteration order by a Begin with no other Begin in between —
returns exactly the EventId of that sub-path's Begin event; on Begin and edge
events it returns the offset of the next tag cell, which is where the iterator
yields the next event whenever one exists. -/
theorem C8_next_event_id_in_sub_path (ops : List BuilderOp)
    (hB : (buildCmds ops).length + 4 ≤ 4294967296) :
    (∀ (i j p b f lst fs : Nat) (cl : Bool) (e : Nat),
      (id_events (buildCmds ops))[i]? = some (b, IdEvent.Begin f) →
      (id_events (buildCmds ops))[j]? = some (p, IdEvent.End lst fs cl e) →
      i < j →
      (∀ (k : Nat) (x : Nat × IdEvent), i < k → k < j →
        (id_events (buildCmds ops))[k]? = some x → x.2.isBegin = false) →
      next_event_id_in_sub_path (buildCmds ops) p = some b) ∧
    (∀ i p ev, (id_events (buildCmds ops))[i]? = some (p, ev) → ev.isEnd = false →
      next_event_id_in_sub_path (buildCmds ops) p = some (p + eventCells ev) ∧
      ∀ q e, (id_events (buildCmds ops))[i + 1]? = some (q, e) →
        q = p + eventCells ev) := by
  have hg := buildCmds_good ops hB
  exact ⟨fun i j p b f lst fs cl e hib hje hij hnb =>
      goodList_sub_path_end hg i j p b f lst fs cl e hib hje hij hnb,
    fun i p ev hc hne => goodList_sub_path_next hg i p ev hc hne⟩

theorem C8_witness :
    (buildCmds [.move_to 0, .line_to 1, .close]).length + 4 ≤ 4294967296 ∧
    next_event_id_in_sub_path (buildCmds [.move_to 0, .line_to 1, .close]) 4 =
      some 0 ∧
    next_event_id_in_sub_path (buildCmds [.move_to 0, .line_to 1, .close]) 0 =
      some 2 := by
  refine ⟨by decide, ?_, ?_⟩
  · exact (C8_next_event_id_in_sub_path [.move_to 0, .line_to 1, .close]
      (by decide)).1 0 2 4 0 0 1 0 true 4 (by decide) (by decide) (by decide)
      (fun k x h1 h2 hx => by
        interval_cases k
        have hval : (id_events (buildCmds [.move_to 0, .line_to 1, .close]))[1]? =
            some (2, IdEvent.Line 0 1 2) := by decide
        rw [hval] at hx
        injection hx with h
        rw [← h]
        decide)
  · have h := (C8_next_event_id_in_sub_path [.move_to 0, .line_to 1, .close]
      (by decide)).2 0 0 (.Begin 0) (by decide) (by decide)
    simpa [eventCells] using h.1

/-!
### Stroke tessellator (`tessellation/src/stroke.rs`)

The `f32` scalars of the source are modelled by exact fractions `Q` (an integer
numerator over a positive natural denominator, not reduced, so that every operation
is kernel-computable without gcd).  The finitely many `f32` comparisons of the
source become exact comparisons of the corresponding fraction values; decimal
`f32` literals (`0.001`, `0.95`, `1e-4`, …) are modelled by their decimal values
and `std::f32::consts::PI` by the exact value of the 32-bit float.  The
transcendental `f32` operations (sqrt, sin/cos, atan2, log2), whose bit-exact
behaviour is not part of this repository, are parameters of the model
(`FloatOps`), instantiated for concrete runs with computable rational stand-ins
(`myOps`).
-/

/-- An exact scalar: `n / d` with `d` intended positive; never reduced. -/
structure Q where
  n : Int
  d : Nat
deriving DecidableEq, Repr

instance (k : Nat) : OfNat Q k := ⟨⟨k, 1⟩⟩

def Q.add (a b : Q) : Q := ⟨a.n * b.d + b.n * a.d, a.d * b.d⟩
def Q.neg (a : Q) : Q := ⟨-a.n, a.d⟩
def Q.sub (a b : Q) : Q := a.add b.neg
def Q.mul (a b : Q) : Q := ⟨a.n * b.n, a.d * b.d⟩
/-- Reciprocal; reciprocal of zero is zero (the source would produce inf/NaN there;
no claim depends on that case). -/
def Q.inv (a : Q) : Q :=
  if a.n = 0 then ⟨0, 1⟩
  else if a.n < 0 then ⟨-(a.d : Int), a.n.natAbs⟩
  else ⟨(a.d : Int), a.n.natAbs⟩
def Q.div (a b : Q) : Q := a.mul b.inv
def Q.abs (a : Q) : Q := ⟨(a.n.natAbs : Int), a.d⟩

instance : Add Q := ⟨Q.add⟩
instance : Sub Q := ⟨Q.sub⟩
instance : Neg Q := ⟨Q.neg⟩
instance : Mul Q := ⟨Q.mul⟩
instance : Div Q := ⟨Q.div⟩

/-- Value comparison `a ≤ b` (denominators positive). -/
def Q.leb (a b : Q) : Bool := a.n * b.d ≤ b.n * a.d
/-- Value comparison `a < b`. -/
def Q.ltb (a b : Q) : Bool := a.n * b.d < b.n * a.d
/-- Value equality, the model of `f32` `==`. -/
def Q.eqb (a b : Q) : Bool := a.n * b.d = b.n * a.d

def Q.floorI (q : Q) : Int := q.n.fdiv q.d
def Q.ceilI (q : Q) : Int := -((-q.n).fdiv q.d)
/-- `ceil` kept as an `f32` value (`f32::ceil`). -/
def Q.ceilQ (q : Q) : Q := ⟨q.ceilI, 1⟩
/-- The `as u32` cast of a float: truncation towards zero, clamped to `u32`. -/
def Q.asU32 (q : Q) : Nat :=
  if Q.leb q 0 then 0 else min q.floorI.toNat 4294967295

/-- A 2D point or vector (`Point` / `Vector` of `geom::math`). -/
structure Vec2 where
  x : Q
  y : Q
deriving DecidableEq, Repr

def Vec2.add (a b : Vec2) : Vec2 := ⟨a.x + b.x, a.y + b.y⟩
def Vec2.sub (a b : Vec2) : Vec2 := ⟨a.x - b.x, a.y - b.y⟩
def Vec2.neg (a : Vec2) : Vec2 := ⟨-a.x, -a.y⟩
instance : Add Vec2 := ⟨Vec2.add⟩
instance : Sub Vec2 := ⟨Vec2.sub⟩
instance : Neg Vec2 := ⟨Vec2.neg⟩
def Vec2.smulQ (a : Vec2) (q : Q) : Vec2 := ⟨a.x * q, a.y * q⟩
def Vec2.divQ (a : Vec2) (q : Q) : Vec2 := ⟨a.x / q, a.y / q⟩
def Vec2.dot (a b : Vec2) : Q := a.x * b.x + a.y * b.y
def Vec2.cross (a b : Vec2) : Q := a.x * b.y - a.y * b.x
def Vec2.squareLength (a : Vec2) : Q := a.x * a.x + a.y * a.y
/-- The model of `f32` `==` on points: exact value equality of both coordinates. -/
def Vec2.eqb (a b : Vec2) : Bool := Q.eqb a.x b.x && Q.eqb a.y b.y

/-- The transcendental `f32` operations the stroke code uses; their bit-exact
`f32` behaviour is outside this repository, so the model is parameterized by
them. -/
structure FloatOps where
  sqrt : Q → Q
  sin : Q → Q
  cos : Q → Q
  atan2 : Q → Q → Q
  log2 : Q → Q

def Vec2.length (ops : FloatOps) (a : Vec2) : Q := ops.sqrt a.squareLength
/-- euclid's `normalize`: `v / v.length()`. -/
def Vec2.normalize (ops : FloatOps) (a : Vec2) : Vec2 :=
  a.divQ (a.length ops)

/-- The exact value of `std::f32::consts::PI` (the `f32` nearest to π). -/
def PI32 : Q := ⟨13176795, 4194304⟩

/-- Fuel-driven base-2 logarithm on naturals (`Nat.log2` is not
kernel-computable). -/
def natLog2Aux : Nat → Nat → Nat
  | 0, _ => 0
  | fuel + 1, m => if 2 ≤ m then natLog2Aux fuel (m / 2) + 1 else 0
def natLog2 (m : Nat) : Nat := natLog2Aux m m

/-- Newton iteration for the square root. -/
def newtonSqrt : Nat → Q → Q → Q
  | 0, x, _ => x
  | k + 1, x, q => newtonSqrt k ((x + q / x) * ⟨1, 2⟩) q

/-- Fuel-driven integer square root (monotone Newton from a power-of-two seed). -/
def nsqrtGo (m : Nat) : Nat → Nat → Nat
  | 0, x => x
  | f + 1, x =>
    let x' := (x + m / x) / 2
    if x' < x then nsqrtGo m f x' else x

def nsqrt (m : Nat) : Nat :=
  if m = 0 then 0 else nsqrtGo m 64 (2 ^ (natLog2 m / 2 + 1))

/-- Modelled from the spec: a computable stand-in for `f32::sqrt`: exact on
perfect squares of numerator and denominator, otherwise an integer-square-root
seed refined by two Newton steps (adequate for every branch decision the concrete
runs below take). -/
def qsqrt (q : Q) : Q :=
  if Q.leb q 0 then 0
  else
    let sn := nsqrt q.n.natAbs
    let sd := nsqrt q.d
    if sn * sn = q.n.natAbs && sd * sd = q.d then ⟨(sn : Int), sd⟩
    else newtonSqrt 2 ⟨(nsqrt (q.n.natAbs * q.d) : Int), q.d⟩ q

/-- Modelled from the spec: a computable stand-in for `f32::sin` (cubic Taylor
approximation; it only influences emitted round-cap/round-join vertex
coordinates, never a branch or a count in the runs below). -/
def qsin (a : Q) : Q := a - a * a * a * ⟨1, 6⟩

/-- Modelled from the spec: a computable stand-in for `f32::cos` (quartic Taylor
approximation; same role as `qsin`). -/
def qcos (a : Q) : Q := 1 - a * a * ⟨1, 2⟩ + a * a * a * a * ⟨1, 24⟩

/-- Modelled from the spec: a computable stand-in for `atan2`, exact on the axis
directions (the only inputs the concrete runs below produce). -/
def qatan2 (y x : Q) : Q :=
  if Q.eqb y 0 && Q.ltb 0 x then 0
  else if Q.eqb x 0 && Q.ltb 0 y then PI32 * ⟨1, 2⟩
  else if Q.eqb x 0 && Q.ltb y 0 then PI32 * ⟨-1, 2⟩
  else if Q.eqb y 0 && Q.ltb x 0 then PI32
  else 0

/-- Modelled from the spec: a computable stand-in for `f32::log2` , exact on the
integer-valued inputs produced by `ceil` (nonpositive inputs map to 0, matching
the saturating `as u32` cast of the NaN or negative infinity the source would
produce). -/
def qlog2 (q : Q) : Q := ⟨(natLog2 q.floorI.toNat : Int), 1⟩

/-- The concrete numeric kernel used for all evaluated runs. -/
def myOps : FloatOps := ⟨qsqrt, qsin, qcos, qatan2, qlog2⟩

/-- `LineCap` of the tessellation crate. -/
inductive LineCap
  | Butt
  | Square
  | Round
deriving DecidableEq, Repr

/-- `LineJoin` of the tessellation crate. -/
inductive LineJoin
  | Miter
  | MiterClip
  | Round
  | Bevel
deriving DecidableEq, Repr

/-- `Side` of the tessellation crate. -/
inductive Side
  | Left
  | Right
deriving DecidableEq, Repr

def Side.opposite : Side → Side
  | .Left => .Right
  | .Right => .Left

def Side.is_left : Side → Bool
  | .Left => true
  | .Right => false

/-- `Order` of the tessellation crate. -/
inductive Order
  | Before
  | After
deriving DecidableEq, Repr

def Order.is_after : Order → Bool
  | .After => true
  | .Before => false

/-- The options the stroke tessellator reads (exactly the fields `stroke.rs`
uses). -/
structure StrokeOptions where
  tolerance : Q
  line_width : Q
  line_join : LineJoin
  miter_limit : Q
  start_cap : LineCap
  end_cap : LineCap
  apply_line_width : Bool
deriving DecidableEq, Repr

/-- `VertexSource`: provenance of an emitted vertex. -/
inductive VertexSource
  | Endpoint (id : Nat)
  | Edge (from_ to_ : Nat) (t : Q)
deriving DecidableEq, Repr

/-- `StrokeAttributes` passed to the sink with every vertex. -/
structure StrokeAttributes where
  normal : Vec2
  advancement : Q
  side : Side
  src : VertexSource
deriving DecidableEq, Repr

inductive GeometryBuilderError
  | TooManyVertices
deriving DecidableEq, Repr

inductive TessellationError
  | TooManyVertices
deriving DecidableEq, Repr

/-- `GeometryBuilderError -> TessellationError` (`e.into()`). -/
def GeometryBuilderError.toTess : GeometryBuilderError → TessellationError
  | .TooManyVertices => .TooManyVertices

/-- `Count` returned by `end_geometry`. -/
structure Count where
  vertices : Nat
  indices : Nat
deriving DecidableEq, Repr

/-- Model of a `StrokeGeometryBuilder` sink: it records every appended vertex and
triangle plus the begin/end/abort calls, hands out sequential vertex ids, and —
when `fail_after` is set — rejects every `add_stroke_vertex` once that many
vertices exist, exactly like the failing builder of the source's
`test_too_many_vertices`. -/
structure Sink where
  verts : List (Vec2 × StrokeAttributes)
  tris : List (Nat × Nat × Nat)
  fail_after : Option Nat
  failed_adds : Nat
  began : Bool
  ended : Bool
  aborted : Bool
deriving DecidableEq, Repr

def Sink.fresh (fail_after : Option Nat) : Sink :=
  ⟨[], [], fail_after, 0, false, false, false⟩

def Sink.add_stroke_vertex (s : Sink) (p : Vec2) (a : StrokeAttributes) :
    Sink × Except GeometryBuilderError Nat :=
  let fails : Bool := match s.fail_after with
    | some k => decide (k ≤ s.verts.length)
    | none => false
  if fails then
    ({ s with failed_adds := s.failed_adds + 1 }, .error .TooManyVertices)
  else
    ({ s with verts := s.verts ++ [(p, a)] }, .ok s.verts.length)

def Sink.add_triangle (s : Sink) (a b c : Nat) : Sink :=
  { s with tris := s.tris ++ [(a, b, c)] }

def Sink.begin_geometry (s : Sink) : Sink := { s with began := true }

def Sink.end_geometry (s : Sink) : Sink × Count :=
  ({ s with ended := true }, ⟨s.verts.length, 3 * s.tris.length⟩)

def Sink.abort_geometry (s : Sink) : Sink := { s with aborted := true }

/-- `EndpointId::INVALID`. -/
def INVALID : Nat := 4294967295

/-- The mutable state of `StrokeBuilder` (the sink reference is carried
separately, see `SB`). -/
structure StrokeBuilder where
  first : Vec2
  previous : Vec2
  current : Vec2
  second : Vec2
  first_endpoint : Nat
  previous_endpoint : Nat
  current_endpoint : Nat
  current_t : Q
  second_endpoint : Nat
  second_t : Q
  previous_left_id : Nat
  previous_right_id : Nat
  second_left_id : Nat
  second_right_id : Nat
  prev_normal : Vec2
  previous_front_side : Side
  nth : Nat
  length : Q
  sub_path_start_length : Q
  options : StrokeOptions
  previous_command_was_move : Bool
  error : Option TessellationError
deriving DecidableEq, Repr

/-- `StrokeBuilder::new`. -/
def StrokeBuilder.new (options : StrokeOptions) : StrokeBuilder :=
  { first := ⟨0, 0⟩
    previous := ⟨0, 0⟩
    current := ⟨0, 0⟩
    second := ⟨0, 0⟩
    first_endpoint := INVALID
    previous_endpoint := INVALID
    current_endpoint := INVALID
    current_t := 0
    second_endpoint := INVALID
    second_t := 0
    previous_left_id := 0
    previous_right_id := 0
    second_left_id := 0
    second_right_id := 0
    prev_normal := ⟨0, 0⟩
    previous_front_side := .Left
    nth := 0
    length := 0
    sub_path_start_length := 0
    options := options
    previous_command_was_move := false
    error := none }

/-- The stroke-builder state together with its output sink. -/
abbrev SB := StrokeBuilder × Sink

/-- `StrokeBuilder::builder_error`: latch the first error. -/
def builder_error (s : StrokeBuilder) (e : GeometryBuilderError) : StrokeBuilder :=
  if s.error.isNone then { s with error := some e.toTess } else s

/-- The `add_vertex!` macro: apply half line-width along the normal when
`apply_line_width` is set, push to the sink, and on failure latch the error and
substitute the placeholder `VertexId(0)`. -/
def add_vertex (sb : SB) (position : Vec2) (attributes : StrokeAttributes) :
    SB × Nat :=
  let position := if sb.1.options.apply_line_width
    then position + (attributes.normal.smulQ sb.1.options.line_width).divQ 2
    else position
  match sb.2.add_stroke_vertex position attributes with
  | (snk, .ok v) => ((sb.1, snk), v)
  | (snk, .error e) => ((builder_error sb.1 e, snk), 0)

/-- Modelled from the spec: `math_utils::compute_normal` is not under src/.  §4.5
describes the miter vertex as sitting at "the normalized tangent-bisector offset"
whose length is compared against `miter_limit`: the perpendicular of the
normalized tangent bisector, scaled so that its projection onto each edge's own
unit normal is 1; for (nearly) opposite tangents fall back to the first tangent's
unit normal (`EPSILON = 1e-4` as in `stroke.rs`). -/
def compute_normal (ops : FloatOps) (v1 v2 : Vec2) : Vec2 :=
  let epsilon : Q := ⟨1, 10000⟩
  let n1 := Vec2.mk (-v1.y) v1.x
  let v12 := v1 + v2
  if Q.ltb v12.squareLength epsilon then n1
  else
    let tangent := v12.normalize ops
    let n := Vec2.mk (-tangent.y) tangent.x
    let inv_len := n.dot n1
    if Q.ltb inv_len.abs epsilon then n1
    else n.divQ inv_len

/-- Modelled from the spec: `geom::utils::normalized_tangent` is not under src/;
the left-hand unit normal of a vector — rotate by 90° and normalize. -/
def normalized_tangent (ops : FloatOps) (v : Vec2) : Vec2 :=
  (Vec2.mk (-v.y) v.x).normalize ops

/-- Modelled from the spec: `basic_shapes::circle_flattening_step` is not under
src/.  §4.5 ties round-cap subdivision to "the same tolerance-driven flattening
step used elsewhere": the chord length of an arc of the given radius whose maximum
deviation (sagitta) equals the tolerance, the tolerance being clamped to the
radius: `2 * sqrt(2*tolerance*radius - tolerance^2)`. -/
def circle_flattening_step (ops : FloatOps) (radius tolerance : Q) : Q :=
  let tolerance := if Q.ltb radius tolerance then radius else tolerance
  ops.sqrt (((2 : Q) * tolerance * radius) - tolerance * tolerance) * 2

/-- Modelled from the spec: `LineSegment::intersection` of lyon_geom is not under
src/; §4.5 MiterClip intersects each edge's offset segment with the limit segment,
with no intersection when the segments are parallel or the intersection falls
outside either segment. -/
def segIntersection (a1 a2 b1 b2 : Vec2) : Option Vec2 :=
  let r := a2 - a1
  let s := b2 - b1
  let denom := r.cross s
  if Q.eqb denom 0 then none
  else
    let t := ((b1 - a1).cross s) / denom
    let u := ((b1 - a1).cross r) / denom
    if Q.leb 0 t && Q.leb t 1 && Q.leb 0 u && Q.leb u 1 then
      some (a1 + r.smulQ t)
    else none

/-- Modelled from the spec: `geom::utils::directed_angle` is not under src/; the
angle from `v1` to `v2` (polar angle difference), via atan2. -/
def directed_angle (ops : FloatOps) (v1 v2 : Vec2) : Q :=
  ops.atan2 (v1.cross v2) (v1.dot v2)

/-- `compute_max_radius_segment_angle` (in `stroke.rs`). -/
def compute_max_radius_segment_angle (ops : FloatOps) (radius tolerance : Q) : Q :=
  let t := radius - tolerance
  ops.sqrt ((radius * radius - t * t) * 4) / radius

/-- `get_join_angle` (in `stroke.rs`; `Trig::fast_atan2` is modelled by the
kernel's atan2). -/
def get_join_angle (ops : FloatOps) (prev_tangent next_tangent : Vec2) : Q :=
  let join_angle := ops.atan2 prev_tangent.y prev_tangent.x -
    ops.atan2 next_tangent.y next_tangent.x
  if Q.ltb PI32 join_angle then join_angle - 2 * PI32
  else if Q.ltb join_angle (-PI32) then join_angle + 2 * PI32
  else join_angle

/-- The free function `tess_round_cap`: recursive binary angle subdivision,
structural on `num_recursions`; the `?` on `add_stroke_vertex` propagates the
error and stops. -/
def tess_round_cap (ops : FloatOps) (center : Vec2) (angle0 angle1 radius : Q)
    (va vb : Nat) (num_recursions : Nat) (advancement : Q) (side : Side)
    (line_width : Q) (invert_winding : Bool) (src : VertexSource)
    (output : Sink) : Sink × Except GeometryBuilderError Unit :=
  match num_recursions with
  | 0 => (output, .ok ())
  | k + 1 =>
    let mid_angle := (angle0 + angle1) * ⟨1, 2⟩
    let normal := Vec2.mk (ops.cos mid_angle) (ops.sin mid_angle)
    match output.add_stroke_vertex (center + normal.smulQ line_width)
        ⟨normal, advancement, side, src⟩ with
    | (snk, .error e) => (snk, .error e)
    | (snk, .ok vertex) =>
      let (v1, v2, v3) := if invert_winding then (vertex, vb, va) else (vertex, va, vb)
      let snk := snk.add_triangle v1 v2 v3
      match tess_round_cap ops center angle0 mid_angle radius va vertex k
          advancement side line_width invert_winding src snk with
      | (snk, .error e) => (snk, .error e)
      | (snk, .ok _) =>
          tess_round_cap ops center mid_angle angle1 radius vertex vb k
            advancement side line_width invert_winding src snk

/-- `StrokeBuilder::tessellate_round_cap`. -/
def tessellate_round_cap (ops : FloatOps) (sb : SB) (center : Vec2) (dir : Vec2)
    (left right : Nat) (is_start : Bool) (src : VertexSource) : SB :=
  let radius := sb.1.options.line_width.abs
  if Q.ltb radius ⟨1, 10000⟩ then sb
  else
    let arc_len := (⟨1, 2⟩ : Q) * PI32 * radius
    let step := circle_flattening_step ops radius sb.1.options.tolerance
    let num_segments := (arc_len / step).ceilQ
    let num_recursions := (ops.log2 num_segments).asU32 * 2
    let dir := dir.normalize ops
    let advancement := sb.1.length
    let quarter_angle : Q := if is_start then (-PI32) * ⟨1, 2⟩ else PI32 * ⟨1, 2⟩
    let mid_angle := directed_angle ops (Vec2.mk 1 0) dir
    let left_angle := mid_angle + quarter_angle
    let right_angle := mid_angle - quarter_angle
    let (sb, mid_vertex) := add_vertex sb center ⟨dir, advancement, .Left, src⟩
    let (v1, v2, v3) := if is_start then (left, right, mid_vertex)
      else (left, mid_vertex, right)
    let sb := (sb.1, sb.2.add_triangle v1 v2 v3)
    let apply_width : Q := if sb.1.options.apply_line_width
      then sb.1.options.line_width * ⟨1, 2⟩ else 0
    let (snk, r1) := tess_round_cap ops center left_angle mid_angle radius left
      mid_vertex num_recursions advancement .Left apply_width (!is_start) src sb.2
    let sb := match r1 with
      | .error e => (builder_error sb.1 e, snk)
      | .ok _ => (sb.1, snk)
    let (snk, r2) := tess_round_cap ops center mid_angle right_angle radius
      mid_vertex right num_recursions advancement .Right apply_width (!is_start)
      src sb.2
    match r2 with
    | .error e => (builder_error sb.1 e, snk)
    | .ok _ => (sb.1, snk)

/-- `StrokeBuilder::tessellate_empty_square_cap`. -/
def tessellate_empty_square_cap (sb : SB) (src : VertexSource) : SB :=
  let (sb, a) := add_vertex sb sb.1.current ⟨Vec2.mk 1 1, 0, .Right, src⟩
  let (sb, b) := add_vertex sb sb.1.current ⟨Vec2.mk 1 (-(1 : Q)), 0, .Left, src⟩
  let (sb, c) := add_vertex sb sb.1.current
    ⟨Vec2.mk (-(1 : Q)) (-(1 : Q)), 0, .Left, src⟩
  let (sb, d) := add_vertex sb sb.1.current ⟨Vec2.mk (-(1 : Q)) 1, 0, .Right, src⟩
  let snk := (sb.2.add_triangle a b c).add_triangle a c d
  (sb.1, snk)

/-- `StrokeBuilder::tessellate_empty_round_cap`. -/
def tessellate_empty_round_cap (ops : FloatOps) (sb : SB) (src : VertexSource) :
    SB :=
  let center := sb.1.current
  let (sb, left_id) := add_vertex sb center
    ⟨Vec2.mk (-(1 : Q)) 0, 0, .Left, src⟩
  let (sb, right_id) := add_vertex sb center ⟨Vec2.mk 1 0, 0, .Right, src⟩
  let sb := tessellate_round_cap ops sb center (Vec2.mk 0 (-(1 : Q))) left_id
    right_id true src
  tessellate_round_cap ops sb center (Vec2.mk 0 1) left_id right_id false src

/-- `StrokeBuilder::tessellate_back_join`. -/
def tessellate_back_join (sb : SB) (prev_tangent next_tangent : Vec2)
    (prev_length next_length : Q) (front_side : Side) (front_normal : Vec2)
    (src : VertexSource) : SB × Nat × Nat × Option Order :=
  let w := sb.1.options.line_width
  let d_next := (-w) / 2 * (front_normal.dot next_tangent) - next_length
  let d_prev := (-w) / 2 * (front_normal.dot (-prev_tangent)) - prev_length
  let (d, t2, order) :=
    if Q.ltb d_next d_prev then (d_prev, next_tangent, Order.Before)
    else (d_next, -prev_tangent, Order.After)
  if Q.ltb 0 d then
    let n2 := (match front_side with
      | .Right => Vec2.mk t2.y (-t2.x)
      | .Left => Vec2.mk (-t2.y) t2.x).smulQ
        (if order.is_after then ⟨-1, 1⟩ else 1)
    let back_end_vertex_normal := -n2
    let back_start_vertex_normal := Vec2.mk 0 0
    let (sb, back_start_vertex) := add_vertex sb sb.1.current
      ⟨back_start_vertex_normal, sb.1.length, front_side.opposite, src⟩
    let (sb, back_end_vertex) := add_vertex sb sb.1.current
      ⟨back_end_vertex_normal, sb.1.length, front_side.opposite, src⟩
    match order with
    | .Before => (sb, back_start_vertex, back_end_vertex, some order)
    | .After => (sb, back_end_vertex, back_start_vertex, some order)
  else
    let (sb, back_start_vertex) := add_vertex sb sb.1.current
      ⟨-front_normal, sb.1.length, front_side.opposite, src⟩
    (sb, back_start_vertex, back_start_vertex, none)

/-- `StrokeBuilder::tessellate_bevel_join`. -/
def tessellate_bevel_join (sb : SB) (prev_tangent next_tangent : Vec2)
    (front_side : Side) (back_vertex : Nat) (src : VertexSource) :
    SB × Nat × Nat :=
  let neg_if_right : Q := if front_side.is_left then 1 else ⟨-1, 1⟩
  let prev_normal := Vec2.mk (-prev_tangent.y) prev_tangent.x
  let next_normal := Vec2.mk (-next_tangent.y) next_tangent.x
  let (sb, start_vertex) := add_vertex sb sb.1.current
    ⟨prev_normal.smulQ neg_if_right, sb.1.length, front_side, src⟩
  let (sb, last_vertex) := add_vertex sb sb.1.current
    ⟨next_normal.smulQ neg_if_right, sb.1.length, front_side, src⟩
  let sb := ({ sb.1 with prev_normal := next_normal }, sb.2)
  let (v1, v2, v3) := if front_side.is_left
    then (start_vertex, last_vertex, back_vertex)
    else (last_vertex, start_vertex, back_vertex)
  ((sb.1, sb.2.add_triangle v1 v2 v3), start_vertex, last_vertex)

/-- The per-segment loop of `tessellate_round_join`: incrementally rotate the
normal and emit one vertex and one triangle per segment. -/
def round_join_loop (sb : SB) (back_vertex : Nat) (front_side : Side)
    (src : VertexSource) (sin cos : Q) :
    Nat → Vec2 → Nat → SB × Vec2 × Nat
  | 0, n, last_vertex => (sb, n, last_vertex)
  | k + 1, n, last_vertex =>
    let n' := Vec2.mk (n.x * cos + n.y * sin) (n.x * (-sin) + n.y * cos)
    let (sb, current_vertex) := add_vertex sb sb.1.current
      ⟨n', sb.1.length, front_side, src⟩
    let (v1, v2, v3) := if front_side.is_left
      then (back_vertex, last_vertex, current_vertex)
      else (back_vertex, current_vertex, last_vertex)
    let sb := (sb.1, sb.2.add_triangle v1 v2 v3)
    round_join_loop sb back_vertex front_side src sin cos k n' current_vertex

/-- `StrokeBuilder::tessellate_round_join`. -/
def tessellate_round_join (ops : FloatOps) (sb : SB)
    (prev_tangent next_tangent : Vec2) (front_side : Side) (back_vertex : Nat)
    (src : VertexSource) : SB × Nat × Nat :=
  let join_angle := get_join_angle ops prev_tangent next_tangent
  let max_radius_segment_angle := compute_max_radius_segment_angle ops
    (sb.1.options.line_width / 2) sb.1.options.tolerance
  let num_segments := (join_angle.abs / max_radius_segment_angle).ceilQ.asU32
  let segment_angle := join_angle / ⟨(num_segments : Int), 1⟩
  let neg_if_right : Q := if front_side.is_left then 1 else ⟨-1, 1⟩
  let initial_normal := (Vec2.mk (-prev_tangent.y) prev_tangent.x).smulQ
    neg_if_right
  let (sb, start_vertex) := add_vertex sb sb.1.current
    ⟨initial_normal, sb.1.length, front_side, src⟩
  let sin := ops.sin segment_angle
  let cos := ops.cos segment_angle
  let (sb, nfin, last_vertex) := round_join_loop sb back_vertex front_side src
    sin cos num_segments initial_normal start_vertex
  let sb := ({ sb.1 with prev_normal := nfin.smulQ neg_if_right }, sb.2)
  (sb, start_vertex, last_vertex)

/-- `StrokeBuilder::get_clip_intersections`. -/
def get_clip_intersections (ops : FloatOps) (s : StrokeBuilder)
    (prev_normal next_normal normal : Vec2) : Vec2 × Vec2 :=
  let miter_length := s.options.miter_limit * s.options.line_width
  let normal_limit := (normal.normalize ops).smulQ miter_length
  let nlp_from := Vec2.mk (normal_limit.x - normal_limit.y)
    (normal_limit.y + normal_limit.x)
  let nlp_to := Vec2.mk (normal_limit.x + normal_limit.y)
    (normal_limit.y - normal_limit.x)
  let i1 := (segIntersection prev_normal normal nlp_from nlp_to).getD prev_normal
  let i2 := (segIntersection next_normal normal nlp_from nlp_to).getD next_normal
  (i1, i2)

/-- `StrokeBuilder::tessellate_miter_clip_join`. -/
def tessellate_miter_clip_join (ops : FloatOps) (sb : SB)
    (prev_tangent next_tangent : Vec2) (front_side : Side) (back_vertex : Nat)
    (normal : Vec2) (src : VertexSource) : SB × Nat × Nat :=
  let neg_if_right : Q := if front_side.is_left then 1 else ⟨-1, 1⟩
  let prev_normal := Vec2.mk (-prev_tangent.y) prev_tangent.x
  let next_normal := Vec2.mk (-next_tangent.y) next_tangent.x
  let (v1, v2) := get_clip_intersections ops sb.1 prev_normal next_normal normal
  let (sb, start_vertex) := add_vertex sb sb.1.current
    ⟨v1.smulQ neg_if_right, sb.1.length, front_side, src⟩
  let (sb, last_vertex) := add_vertex sb sb.1.current
    ⟨v2.smulQ neg_if_right, sb.1.length, front_side, src⟩
  let sb := ({ sb.1 with prev_normal := normal }, sb.2)
  let (w1, w2, w3) := if front_side.is_left
    then (back_vertex, start_vertex, last_vertex)
    else (back_vertex, last_vertex, start_vertex)
  ((sb.1, sb.2.add_triangle w1 w2 w3), start_vertex, last_vertex)

/-- `StrokeBuilder::miter_limit_is_exceeded`. -/
def miter_limit_is_exceeded (s : StrokeBuilder) (normal : Vec2) : Bool :=
  Q.ltb (s.options.miter_limit * s.options.miter_limit) normal.squareLength

/-- `StrokeBuilder::tessellate_join`: returns
`(state, start_left, start_right, end_left, end_right, front_side)`. -/
def tessellate_join (ops : FloatOps) (sb : SB) (previous_edge next_edge : Vec2)
    (join_type0 : LineJoin) : SB × Nat × Nat × Nat × Nat × Side :=
  let prev_tangent := previous_edge.normalize ops
  let next_tangent := next_edge.normalize ops
  let previous_edge_length := previous_edge.length ops
  let next_edge_length := next_edge.length ops
  let sb := ({ sb.1 with length := sb.1.length + previous_edge_length }, sb.2)
  let src := if Q.eqb sb.1.current_t 0 || Q.eqb sb.1.current_t 1
    then VertexSource.Endpoint sb.1.current_endpoint
    else VertexSource.Edge sb.1.previous_endpoint sb.1.current_endpoint
      sb.1.current_t
  let normal := compute_normal ops prev_tangent next_tangent
  let (front_side, front_normal) :=
    if Q.leb 0 (next_tangent.cross prev_tangent) then (Side.Left, normal)
    else (Side.Right, -normal)
  let (sb, back_start_vertex, back_end_vertex, order) :=
    tessellate_back_join sb prev_tangent next_tangent previous_edge_length
      next_edge_length front_side front_normal src
  let join_type :=
    if Q.leb ⟨19, 20⟩ (prev_tangent.dot next_tangent) then LineJoin.Miter
    else if join_type0 = LineJoin.Miter && miter_limit_is_exceeded sb.1 normal
      then LineJoin.Bevel
    else if join_type0 = LineJoin.MiterClip &&
        !(miter_limit_is_exceeded sb.1 normal) then LineJoin.Miter
    else join_type0
  let back_join_vertex := match order with
    | some .Before => back_start_vertex
    | some .After => back_end_vertex
    | none => back_start_vertex
  let (sb, start_vertex, end_vertex) := match join_type with
    | .Round => tessellate_round_join ops sb prev_tangent next_tangent front_side
        back_join_vertex src
    | .Bevel => tessellate_bevel_join sb prev_tangent next_tangent front_side
        back_join_vertex src
    | .MiterClip => tessellate_miter_clip_join ops sb prev_tangent next_tangent
        front_side back_join_vertex normal src
    | .Miter =>
      let (sb, end_vertex) := add_vertex sb sb.1.current
        ⟨front_normal, sb.1.length, front_side, src⟩
      let sb := ({ sb.1 with prev_normal := normal }, sb.2)
      match order with
      | some ord =>
        let t2 := match ord with
          | .Before => next_tangent
          | .After => prev_tangent
        let n1 := match front_side with
          | .Right => Vec2.mk t2.y (-t2.x)
          | .Left => Vec2.mk (-t2.y) t2.x
        let (sb, start_vertex) := add_vertex sb sb.1.current
          ⟨n1, sb.1.length, front_side, src⟩
        let sb := (sb.1, sb.2.add_triangle start_vertex end_vertex back_join_vertex)
        (match ord with
         | .Before => (sb, end_vertex, start_vertex)
         | .After => (sb, start_vertex, end_vertex))
      | none => (sb, end_vertex, end_vertex)
  let sb :=
    if back_end_vertex ≠ back_start_vertex then
      let (a, b, c) := match order with
        | some .Before => (back_end_vertex, end_vertex, back_start_vertex)
        | some .After => (back_end_vertex, start_vertex, back_start_vertex)
        | none => (back_end_vertex, end_vertex, back_start_vertex)
      match front_side with
      | .Left => (sb.1, sb.2.add_triangle a b c)
      | .Right => (sb.1, sb.2.add_triangle a c b)
    else sb
  match front_side with
  | .Left => (sb, start_vertex, back_start_vertex, end_vertex, back_end_vertex,
      front_side)
  | .Right => (sb, back_start_vertex, start_vertex, back_end_vertex,
      end_vertex, front_side)

/-- `StrokeBuilder::edge_to`. -/
def edge_to (ops : FloatOps) (sb : SB) (to_ : Vec2) (endpoint : Nat) (t : Q)
    (with_join : Bool) : SB :=
  if Vec2.eqb to_ sb.1.current then sb
  else if sb.1.nth = 0 then
    ({ sb.1 with
        previous := sb.1.first
        previous_endpoint := sb.1.first_endpoint
        current := to_
        current_endpoint := endpoint
        nth := sb.1.nth + 1 }, sb.2)
  else
    let previous_edge := sb.1.current - sb.1.previous
    let next_edge := to_ - sb.1.current
    let join_type := if with_join then sb.1.options.line_join else LineJoin.Miter
    let (sb, start_left_id, start_right_id, end_left_id, end_right_id,
        front_side) := tessellate_join ops sb previous_edge next_edge join_type
    let sb :=
      if 1 < sb.1.nth then
        match sb.1.previous_front_side with
        | .Left =>
          let snk := sb.2.add_triangle sb.1.previous_right_id sb.1.previous_left_id
            start_right_id
          let snk := snk.add_triangle sb.1.previous_left_id start_left_id
            start_right_id
          (sb.1, snk)
        | .Right =>
          let snk := sb.2.add_triangle sb.1.previous_right_id sb.1.previous_left_id
            start_left_id
          let snk := snk.add_triangle sb.1.previous_right_id start_left_id
            start_right_id
          (sb.1, snk)
      else sb
    let s := sb.1
    let s := { s with
      previous_command_was_move := false
      previous_front_side := front_side
      previous := s.current
      previous_endpoint := s.current_endpoint
      previous_left_id := end_left_id
      previous_right_id := end_right_id
      current := to_
      current_endpoint := endpoint
      current_t := t }
    let s := if s.nth = 1 then
        { s with
          second := s.current
          second_endpoint := s.current_endpoint
          second_t := t
          second_left_id := start_left_id
          second_right_id := start_right_id }
      else s
    ({ s with nth := s.nth + 1 }, sb.2)

/-- The closing connection of `StrokeBuilder::close` (everything after the
threshold test on the distance to the first point): connect back to the stored
second/previous vertices when the sub-path had at least two points, then reset
the per-sub-path state. -/
def close_connection (ops : FloatOps) (sb : SB) : SB :=
  let sb :=
    if 1 < sb.1.nth then
      let sb := edge_to ops sb sb.1.second sb.1.second_endpoint sb.1.second_t true
      let src := VertexSource.Endpoint sb.1.previous_endpoint
      let (sb, first_left_id) := add_vertex sb sb.1.previous
        ⟨sb.1.prev_normal, sb.1.sub_path_start_length, .Left, src⟩
      let (sb, first_right_id) := add_vertex sb sb.1.previous
        ⟨-sb.1.prev_normal, sb.1.sub_path_start_length, .Right, src⟩
      let snk := sb.2.add_triangle first_right_id first_left_id
        sb.1.second_right_id
      let snk := snk.add_triangle first_left_id sb.1.second_left_id
        sb.1.second_right_id
      (sb.1, snk)
    else sb
  ({ sb.1 with
      nth := 0
      current := sb.1.first
      sub_path_start_length := sb.1.length
      previous_command_was_move := false }, sb.2)

/-- `StrokeBuilder::close`: skip the closing edge to the first point when the
squared distance to it is within the `0.001` threshold, then run the closing
connection. -/
def close (ops : FloatOps) (sb : SB) : SB :=
  let threshold : Q := ⟨1, 1000⟩
  let sb :=
    if Q.ltb threshold ((sb.1.first - sb.1.current).squareLength) then
      edge_to ops sb sb.1.first sb.1.first_endpoint 0 true
    else sb
  close_connection ops sb

/-- `StrokeBuilder::finish`. -/
def finish (ops : FloatOps) (sb : SB) : SB :=
  let sb :=
    if sb.1.nth = 0 && sb.1.previous_command_was_move then
      let src := VertexSource.Endpoint sb.1.current_endpoint
      match sb.1.options.start_cap with
      | .Square => tessellate_empty_square_cap sb src
      | .Round => tessellate_empty_round_cap ops sb src
      | .Butt => sb
    else sb
  let sb :=
    if 0 < sb.1.nth then
      let current := sb.1.current
      let d := sb.1.current - sb.1.previous
      let sb := if sb.1.options.end_cap = LineCap.Square
        then ({ sb.1 with current := sb.1.current + d.normalize ops }, sb.2)
        else sb
      let p := sb.1.current + d
      let sb := edge_to ops sb p sb.1.previous_endpoint 0 true
      let sb := ({ sb.1 with current := current }, sb.2)
      if sb.1.options.end_cap = LineCap.Round then
        let src := VertexSource.Endpoint sb.1.previous_endpoint
        let left_id := sb.1.previous_left_id
        let right_id := sb.1.previous_right_id
        tessellate_round_cap ops sb current d left_id right_id false src
      else sb
    else sb
  if 1 < sb.1.nth then
    let first0 := sb.1.first
    let d := first0 - sb.1.second
    let first := if sb.1.options.start_cap = LineCap.Square
      then first0 + d.normalize ops else first0
    let n2 := normalized_tangent ops d
    let n1 := -n2
    let src := VertexSource.Endpoint sb.1.first_endpoint
    let (sb, first_left_id) := add_vertex sb first
      ⟨n1, sb.1.sub_path_start_length, .Left, src⟩
    let (sb, first_right_id) := add_vertex sb first
      ⟨n2, sb.1.sub_path_start_length, .Right, src⟩
    let sb := if sb.1.options.start_cap = LineCap.Round
      then tessellate_round_cap ops sb first d first_left_id first_right_id
        true src
      else sb
    let snk := sb.2.add_triangle first_right_id first_left_id
      sb.1.second_right_id
    let snk := snk.add_triangle first_left_id sb.1.second_left_id
      sb.1.second_right_id
    (sb.1, snk)
  else sb

/-- `StrokeBuilder::begin`: flush the previous sub-path, then restart. -/
def begin (ops : FloatOps) (sb : SB) (to_ : Vec2) (endpoint : Nat) : SB :=
  let sb := finish ops sb
  ({ sb.1 with
      first := to_
      current := to_
      first_endpoint := endpoint
      current_endpoint := endpoint
      current_t := 0
      nth := 0
      sub_path_start_length := sb.1.length
      previous_command_was_move := true }, sb.2)

/-! ### Drivers -/

/-- A `PositionStore`: resolve endpoint and control-point ids to positions. -/
structure PositionStore where
  endpoint_position : Nat → Vec2
  ctrl_point_position : Nat → Vec2

/-- Point on a quadratic Bézier segment at parameter `t`. -/
def quadPoint (p0 c p2 : Vec2) (t : Q) : Vec2 :=
  let u := (1 : Q) - t
  (p0.smulQ (u * u)) + (c.smulQ (2 * u * t)) + (p2.smulQ (t * t))

/-- Point on a cubic Bézier segment at parameter `t`. -/
def cubicPoint (p0 c1 c2 p3 : Vec2) (t : Q) : Vec2 :=
  let u := (1 : Q) - t
  (p0.smulQ (u * u * u)) + (c1.smulQ (3 * u * u * t)) +
    (c2.smulQ (3 * u * t * t)) + (p3.smulQ (t * t * t))

/-- Modelled from the spec: the number of flattening steps of
`for_each_flattened` — a tolerance-bounded polyline, more steps for a tighter
tolerance (the exact adaptive criterion of lyon_geom is not under src/). -/
def flattenSteps (tolerance : Q) : Nat :=
  max 1 (min 64 (((1 : Q) / tolerance).ceilQ.asU32))

/-- Modelled from the spec: `for_each_flattened_with_t` on a quadratic Bézier
segment: the split points with their curve parameters, the last being the
endpoint at `t = 1`. -/
def flattenQuad (tolerance : Q) (p0 c p2 : Vec2) : List (Vec2 × Q) :=
  let steps := flattenSteps tolerance
  (List.range steps).map fun i =>
    let t : Q := ⟨(i : Int) + 1, steps⟩
    (quadPoint p0 c p2 t, t)

/-- Modelled from the spec: `for_each_flattened_with_t` on a cubic Bézier
segment. -/
def flattenCubic (tolerance : Q) (p0 c1 c2 p3 : Vec2) : List (Vec2 × Q) :=
  let steps := flattenSteps tolerance
  (List.range steps).map fun i =>
    let t : Q := ⟨(i : Int) + 1, steps⟩
    (cubicPoint p0 c1 c2 p3 t, t)

/-- The flattening loop of the ID driver's Quadratic/Cubic arms, including the
reset of `previous_endpoint` after every `edge_to` (the "hacky" compensation the
source comments on). -/
def flatten_fold (ops : FloatOps) (to_ : Nat) (previous_endpoint : Nat) :
    SB → List (Vec2 × Q) → Bool → SB
  | sb, [], _ => sb
  | sb, (pt, t) :: rest, first =>
    let sb := edge_to ops sb pt to_ t first
    let sb := ({ sb.1 with previous_endpoint := previous_endpoint }, sb.2)
    flatten_fold ops to_ previous_endpoint sb rest false

/-- One event step of `StrokeBuilder::tessellate_path_with_ids` (the inner
driver; note: no error check anywhere in this loop). -/
def id_path_event (ops : FloatOps) (ps : PositionStore) (sb : SB) :
    IdEvent → SB
  | .Begin at_ => begin ops sb (ps.endpoint_position at_) at_
  | .Line _ to_ _ => edge_to ops sb (ps.endpoint_position to_) to_ 0 true
  | .Quadratic _ ctrl to_ _ =>
    let previous_endpoint := sb.1.current_endpoint
    flatten_fold ops to_ previous_endpoint sb
      (flattenQuad sb.1.options.tolerance sb.1.current
        (ps.ctrl_point_position ctrl) (ps.endpoint_position to_)) true
  | .Cubic _ c1 c2 to_ _ =>
    let previous_endpoint := sb.1.current_endpoint
    flatten_fold ops to_ previous_endpoint sb
      (flattenCubic sb.1.options.tolerance sb.1.current
        (ps.ctrl_point_position c1) (ps.ctrl_point_position c2)
        (ps.endpoint_position to_)) true
  | .End _ _ true _ => close ops sb
  | .End _ _ false _ => finish ops sb

/-- `StrokeTessellator::tessellate_path_with_ids`: begin the geometry, run the
inner driver over all events (without consulting `stroker.error`), then
`stroker.build()?` — which always returns `Ok(())` — and `end_geometry`.  `none`
models the `assert!` panic on custom attributes. -/
def tessellate_path_with_ids (ops : FloatOps) (path : List IdEvent)
    (positions : PositionStore) (custom_attributes : Option Unit)
    (options : StrokeOptions) (builder : Sink) :
    Option (Except TessellationError Count × Sink) :=
  if custom_attributes.isSome then none
  else
    let snk := builder.begin_geometry
    let sb : SB := (StrokeBuilder.new options, snk)
    let sb := path.foldl (id_path_event ops positions) sb
    let sb := finish ops sb
    let (snk, cnt) := sb.2.end_geometry
    some (.ok cnt, snk)

/-- A resolved path event (`PathEvent<Point, Point>`). -/
inductive PathEvent
  | Begin (at_ : Vec2)
  | Line (from_ to_ : Vec2)
  | Quadratic (from_ ctrl to_ : Vec2)
  | Cubic (from_ ctrl1 ctrl2 to_ : Vec2)
  | End (last first : Vec2) (close : Bool)
deriving DecidableEq, Repr

/-- The per-point flattening loop of the `PathBuilder` curve methods
(`edge_to(point, INVALID, 0.0, first)` for every split point). -/
def flatten_fold_pts (ops : FloatOps) : SB → List (Vec2 × Q) → Bool → SB
  | sb, [], _ => sb
  | sb, (pt, _) :: rest, first =>
    flatten_fold_pts ops (edge_to ops sb pt INVALID 0 first) rest false

/-- Modelled from the spec (§4.4): `PathBuilder::path_event` is not under src/;
a Begin event starts a new sub-path (flushing the previous one), Line/Quadratic/
Cubic feed the edge machinery (curves through flattening), a Close event runs
`close()` and an unclosed End finalizes the sub-path. -/
def path_event (ops : FloatOps) (sb : SB) : PathEvent → SB
  | .Begin at_ => begin ops sb at_ INVALID
  | .Line _ to_ => edge_to ops sb to_ INVALID 0 true
  | .Quadratic _ ctrl to_ =>
    flatten_fold_pts ops sb (flattenQuad sb.1.options.tolerance sb.1.current
      ctrl to_) true
  | .Cubic _ c1 c2 to_ =>
    flatten_fold_pts ops sb (flattenCubic sb.1.options.tolerance sb.1.current
      c1 c2 to_) true
  | .End _ _ true => close ops sb
  | .End _ _ false => finish ops sb

/-- The event loop of `StrokeTessellator::tessellate_path`: after every event the
driver checks the latched error and, if set, aborts the geometry and returns the
error; after the loop `stroker.build()?` (which runs `finish` and always returns
`Ok`), then `Ok(end_geometry())`. -/
def tessellate_path_loop (ops : FloatOps) :
    List PathEvent → SB → Except TessellationError Count × Sink
  | [], sb =>
    let sb := finish ops sb
    let (snk, cnt) := sb.2.end_geometry
    (.ok cnt, snk)
  | e :: rest, sb =>
    let sb := path_event ops sb e
    match sb.1.error with
    | some err => (.error err, sb.2.abort_geometry)
    | none => tessellate_path_loop ops rest sb

/-- `StrokeTessellator::tessellate_path`. -/
def tessellate_path (ops : FloatOps) (input : List PathEvent)
    (options : StrokeOptions) (builder : Sink) :
    Except TessellationError Count × Sink :=
  tessellate_path_loop ops input (StrokeBuilder.new options,
    builder.begin_geometry)

/-! ### Concrete stroke scenarios used by the claim theorems -/

/-- `StrokeOptions::DEFAULT` as the tests of `stroke.rs` use it: tolerance
`0.1`, line width `1`, Miter joins with limit `4`, Butt caps, and
`apply_line_width` set. -/
def defaultOptions : StrokeOptions :=
  { tolerance := ⟨1, 10⟩
    line_width := 1
    line_join := .Miter
    miter_limit := 4
    start_cap := .Butt
    end_cap := .Butt
    apply_line_width := true }

/-- A `PositionStore` backed by a list of points (endpoint and control-point
ids both resolve into the list). -/
def listPositions (pts : List Vec2) : PositionStore :=
  ⟨fun i => pts.getD i ⟨0, 0⟩, fun i => pts.getD i ⟨0, 0⟩⟩

/-- The ID-event stream of a closed 4-point polygon built through the
command-stream builder (`move_to`, three `line_to`, `close`). -/
def squareEvents : List IdEvent :=
  (id_events (buildCmds [.move_to 0, .line_to 1, .line_to 2, .line_to 3,
    .close])).map Prod.snd

/-- How many triangles the ID-path stroke tessellator emits for the given
events, point list and options. -/
def strokeTriangleCount (evs : List IdEvent) (pts : List Vec2)
    (o : StrokeOptions) : Option Nat :=
  (tessellate_path_with_ids myOps evs (listPositions pts) none o
    (Sink.fresh none)).map (fun r => r.2.tris.length)

/-- The positions of the vertices the ID-path stroke tessellator emits. -/
def strokeVertexPositions (evs : List IdEvent) (pts : List Vec2)
    (o : StrokeOptions) : Option (List Vec2) :=
  (tessellate_path_with_ids myOps evs (listPositions pts) none o
    (Sink.fresh none)).map (fun r => r.2.verts.map Prod.fst)

/-- The unit square (side length 1), counter-clockwise. -/
def unitSquare : List Vec2 := [⟨0, 0⟩, ⟨1, 0⟩, ⟨1, 1⟩, ⟨0, 1⟩]

/-- The unit square traversed in the opposite winding direction. -/
def unitSquareRev : List Vec2 := [⟨0, 1⟩, ⟨1, 1⟩, ⟨1, 0⟩, ⟨0, 0⟩]

/-- The square of the `test_square` test of `stroke.rs`: corners at
`(±1, ±1)`, so its side length is 2. -/
def testSquare : List Vec2 := [⟨-1, -1⟩, ⟨1, -1⟩, ⟨1, 1⟩, ⟨-1, 1⟩]

/-- The `test_square` square traversed in the opposite winding direction. -/
def testSquareRev : List Vec2 := [⟨-1, 1⟩, ⟨1, 1⟩, ⟨1, -1⟩, ⟨-1, -1⟩]

/-- The default options with Bevel joins. -/
def bevelOptions : StrokeOptions := { defaultOptions with line_join := .Bevel }

/-- The default options with MiterClip joins and miter limit 1. -/
def miterClipOptions : StrokeOptions :=
  { defaultOptions with
    line_join := .MiterClip
    miter_limit := 1 }

/-- Three isolated points for the empty-cap scenario. -/
def capPoints : List Vec2 := [⟨0, 0⟩, ⟨1, 0⟩, ⟨2, 0⟩]

/-- The ID-event stream of three single-point sub-paths (three `move_to`, no
edge). -/
def capEvents : List IdEvent :=
  (id_events (buildCmds [.move_to 0, .move_to 1, .move_to 2])).map Prod.snd

/-- The default options with the given cap on both ends and the given
tolerance. -/
def capOptions (c : LineCap) (tol : Q) : StrokeOptions :=
  { defaultOptions with
    start_cap := c
    end_cap := c
    tolerance := tol }

/-- The endpoints of a single horizontal unit-length edge. -/
def linePoints : List Vec2 := [⟨0, 0⟩, ⟨1, 0⟩]

/-- The ID-event stream of the single-edge path (`move_to`, `line_to`). -/
def lineIdEvents : List IdEvent :=
  (id_events (buildCmds [.move_to 0, .line_to 1])).map Prod.snd

/-- The default options with Square caps on both ends. -/
def squareCapOptions : StrokeOptions :=
  { defaultOptions with
    start_cap := .Square
    end_cap := .Square }

/-- Pointwise value equality (float `==`) of two vertex-position lists. -/
def vecListEqb : List Vec2 → List Vec2 → Bool
  | [], [] => true
  | x :: xs, y :: ys => Vec2.eqb x y && vecListEqb xs ys
  | _, _ => false

/-- One half, as an exact scalar. -/
def half : Q := ⟨1, 2⟩

/-- The vertex positions the single-edge Square-cap run actually emits (line
width 1): the end-cap corners at `x = 2` and the start-cap corners at
`x = -1`, one full unit beyond the endpoints `x = 1` and `x = 0`; the last
four vertices come from the second `finish` that `build()` runs after the
`End` event already ran one. -/
def squareCapExpectedVerts : List Vec2 :=
  [⟨2, -half⟩, ⟨2, half⟩, ⟨-1, half⟩, ⟨-1, -half⟩,
   ⟨0, half⟩, ⟨0, -half⟩, ⟨-1, half⟩, ⟨-1, -half⟩]

/-- The stroke state after `Begin` and `Line` of the single-edge path (before
the `End` event flushes it), under Square caps. -/
def midLineState : SB :=
  (lineIdEvents.take 2).foldl (id_path_event myOps (listPositions linePoints))
    (StrokeBuilder.new squareCapOptions, (Sink.fresh none).begin_geometry)

/-- The ID driver run on the single-edge path with a sink that rejects every
vertex (`fail_after = 0`), as the failing builder of
`test_too_many_vertices` does. -/
def failingSinkRun : Option (Except TessellationError Count × Sink) :=
  tessellate_path_with_ids myOps lineIdEvents (listPositions linePoints) none
    defaultOptions (Sink.fresh (some 0))

/-- The single-edge path as resolved `PathEvent`s. -/
def linePathEvents : List PathEvent :=
  [.Begin ⟨0, 0⟩, .Line ⟨0, 0⟩ ⟨1, 0⟩, .End ⟨1, 0⟩ ⟨0, 0⟩ false]

/-- The event-checking driver (`tessellate_path`) run on the same single-edge
path with the same always-failing sink. -/
def checkedFailingRun : Except TessellationError Count × Sink :=
  tessellate_path myOps linePathEvents defaultOptions (Sink.fresh (some 0))

/-- A fresh stroke state under the default options (current position at the
origin). -/
def freshSB : SB := (StrokeBuilder.new defaultOptions, Sink.fresh none)

/-- A stroke state whose current position is far (squared distance 25) from
the first point of the sub-path. -/
def farSB : SB :=
  ({ StrokeBuilder.new defaultOptions with current := ⟨5, 0⟩ }, Sink.fresh none)

/-! ### Claim theorems for the stroke tessellator -/

/-- C2 fails for `tessellate_path_with_ids`: the ID driver never consults the
latched error and `build()` always returns `Ok(())`, so a sink
`TooManyVertices` failure is silently swallowed. First conjunct: for every
input, the ID entry point returns `Ok` with `end_geometry` run. Second: on the
single-edge path with a sink that rejects every vertex, 6 vertex pushes fail,
yet the call returns `Ok`, the geometry is ended rather than aborted, and 4
triangles of partial geometry (referencing the placeholder vertex 0) remain
observable in the sink. Third: `tessellate_path`, which does check the error
after every event, surfaces the same failure as `Err(TooManyVertices)` and
calls `abort_geometry`. -/
theorem C2_with_ids_swallows_sink_errors :
    (∀ (path : List IdEvent) (ps : PositionStore) (opts : StrokeOptions)
      (b : Sink), ∃ r, tessellate_path_with_ids myOps path ps none opts b =
        some r ∧ r.1.isOk = true ∧ r.2.ended = true) ∧
    failingSinkRun.map (fun r => (r.1.isOk, r.2.ended, r.2.aborted,
        r.2.failed_adds, r.2.verts.length, r.2.tris.length)) =
      some (true, true, false, 6, 0, 4) ∧
    checkedFailingRun.1 = Except.error TessellationError.TooManyVertices ∧
    checkedFailingRun.2.aborted = true :=
  ⟨fun path ps opts b => ⟨_, rfl, rfl, rfl⟩, by rfl, by rfl, by rfl⟩

/-- C4 fails as stated: a true unit square (side length 1) stroked with the
default line width 1 gives 10 triangles under Miter joins (not 8, in either
winding direction), 13 under Bevel (not 12) and 13 under MiterClip with miter
limit 1 (not 12); the extra geometry comes from the back joins that overlap
such short edges. -/
theorem C4_counterexample :
    (strokeTriangleCount squareEvents unitSquare defaultOptions = some 10 ∧
      strokeTriangleCount squareEvents unitSquareRev defaultOptions = some 10 ∧
      strokeTriangleCount squareEvents unitSquare defaultOptions ≠ some 8) ∧
    (strokeTriangleCount squareEvents unitSquare bevelOptions = some 13 ∧
      strokeTriangleCount squareEvents unitSquareRev bevelOptions = some 13 ∧
      strokeTriangleCount squareEvents unitSquare bevelOptions ≠ some 12) ∧
    (strokeTriangleCount squareEvents unitSquare miterClipOptions = some 13 ∧
      strokeTriangleCount squareEvents unitSquareRev miterClipOptions =
        some 13 ∧
      strokeTriangleCount squareEvents unitSquare miterClipOptions ≠
        some 12) := by
  decide

/-- C4 (amended): the counts 8 (Miter) / 12 (Bevel) / 12 (MiterClip with miter
limit 1) hold, in both winding directions, for the closed 4-point square of
the repository's own `test_square` test: corners at `(±1, ±1)`, i.e. side
length 2, stroked with the default options (line width 1). -/
theorem C4_join_counts_test_square :
    (strokeTriangleCount squareEvents testSquare defaultOptions = some 8 ∧
      strokeTriangleCount squareEvents testSquareRev defaultOptions =
        some 8) ∧
    (strokeTriangleCount squareEvents testSquare bevelOptions = some 12 ∧
      strokeTriangleCount squareEvents testSquareRev bevelOptions =
        some 12) ∧
    (strokeTriangleCount squareEvents testSquare miterClipOptions = some 12 ∧
      strokeTriangleCount squareEvents testSquareRev miterClipOptions =
        some 12) :=
  ⟨⟨rfl, rfl⟩, ⟨rfl, rfl⟩, rfl, rfl⟩

/-- C6 diverges from the spec in the extension length: with Square caps the
code shifts the endpoint by `d.normalize()` — one full unit, independent of
the line width — not by half the line width. On the single-edge path from the
origin to `(1, 0)` with line width 1 the cap corners land at `x = 2` and
`x = -1` (half-width extension would put them at `x = 3/2` and `x = -1/2`),
and with line width 3 the first corner still has `x = 2` (half-width would
give `5/2`). The restoration half of the sentence is true: after the end-cap
flush the stored current position again equals its value before the
extension. -/
theorem C6_square_cap_extends_by_unit_not_half_width :
    (strokeVertexPositions lineIdEvents linePoints squareCapOptions).map
        (fun l => vecListEqb l squareCapExpectedVerts) = some true ∧
    ((strokeVertexPositions lineIdEvents linePoints
        squareCapOptions).bind List.head?).map
        (fun v => (Q.eqb v.x 2, Q.eqb v.x ⟨3, 2⟩)) = some (true, false) ∧
    ((strokeVertexPositions lineIdEvents linePoints
        { squareCapOptions with line_width := 3 }).bind List.head?).map
        (fun v => (Q.eqb v.x 2, Q.eqb v.x ⟨5, 2⟩)) = some (true, false) ∧
    Vec2.eqb (finish myOps midLineState).1.current midLineState.1.current =
      true :=
  ⟨rfl, rfl, rfl, rfl⟩

/-- C7: three single-point sub-paths (three `move_to`, no edge) yield 0
triangles with Butt caps; exactly 2 per point (6 in total) with Square caps;
and a nonzero, tolerance-dependent count with Round caps (42 at tolerance
1/10, 186 at the tighter tolerance 1/50). -/
theorem C7_empty_cap_counts :
    strokeTriangleCount capEvents capPoints (capOptions .Butt ⟨1, 10⟩) =
      some 0 ∧
    strokeTriangleCount capEvents capPoints (capOptions .Square ⟨1, 10⟩) =
      some 6 ∧
    strokeTriangleCount capEvents capPoints (capOptions .Round ⟨1, 10⟩) =
      some 42 ∧
    strokeTriangleCount capEvents capPoints (capOptions .Round ⟨1, 50⟩) =
      some 186 :=
  ⟨rfl, rfl, rfl, rfl⟩

/-- C9: `edge_to` with a target point equal (by float equality) to the current
position is a complete no-op: the whole stroke session state and the sink are
returned unchanged — no vertex, no triangle, no field update. -/
theorem C9_edge_to_same_point_no_op (ops : FloatOps) (sb : SB) (to_ : Vec2)
    (endpoint : Nat) (t : Q) (with_join : Bool)
    (h : Vec2.eqb to_ sb.1.current = true) :
    edge_to ops sb to_ endpoint t with_join = sb := by
  simp [edge_to, h]

/-- C9 witness: on a fresh builder (current position at the origin), an
`edge_to` targeting the origin returns the state unchanged. -/
theorem C9_witness : edge_to myOps freshSB ⟨0, 0⟩ 7 0 true = freshSB :=
  C9_edge_to_same_point_no_op myOps freshSB ⟨0, 0⟩ 7 0 true (by decide)

/-- C10: when a sub-path closes, the closing edge from the current point to
the first point is added exactly when their squared distance exceeds the
`0.001` threshold; within the threshold, `close()` goes straight to the
closing connection with no join computed at the first point. The ID driver
routes a Close event to `close()`. -/
theorem C10_close_skips_short_closing_edge (ops : FloatOps) (sb : SB) :
    (Q.ltb ⟨1, 1000⟩ ((sb.1.first - sb.1.current).squareLength) = false →
      close ops sb = close_connection ops sb) ∧
    (Q.ltb ⟨1, 1000⟩ ((sb.1.first - sb.1.current).squareLength) = true →
      close ops sb = close_connection ops
        (edge_to ops sb sb.1.first sb.1.first_endpoint 0 true)) ∧
    (∀ (ps : PositionStore) (l f e : Nat),
      id_path_event ops ps sb (IdEvent.End l f true e) = close ops sb) := by
  refine ⟨fun h => ?_, fun h => ?_, fun ps l f e => rfl⟩ <;> simp [close, h]

/-- C10 witness: on a fresh builder the current point coincides with the first
point (squared distance 0, within the threshold) and the closing edge is
skipped; on a builder whose current point is at distance 5 the closing edge is
added. -/
theorem C10_witness :
    close myOps freshSB = close_connection myOps freshSB ∧
    close myOps farSB = close_connection myOps
      (edge_to myOps farSB farSB.1.first farSB.1.first_endpoint 0 true) :=
  ⟨(C10_close_skips_short_closing_edge myOps freshSB).1 (by decide),
   (C10_close_skips_short_closing_edge myOps farSB).2.1 (by decide)⟩

end Lyon
